import Mathlib

/-!
Shallow embedding of the bot decision engine (`src/bot.py`) and verification
of the frozen claims about it.

Conventions of the embedding:
* Python `int` coordinates and values become `Int`; tick counters become `Nat`.
* Python sets iterated over become `List`s (iteration order of a Python set is
  implementation-defined; every theorem about a set-iterating fold is stated in
  an order-robust way).
* Python dicts become association lists built by consing, so that the first
  matching entry corresponds to the most recent Python assignment.
* The pseudo-random source (`random.randint` pairs) is an injected function;
  theorems quantify over all such functions, covering every execution.
* The float score `nutrient * 3.0 - dist * 1.0` in `_pick_unvisited_target` is
  exact integer arithmetic for machine-range inputs, so it is embedded as `Int`.
-/

namespace CoveoBot

/-- `Position` record of the game messages: a pair of integer coordinates,
also used for direction vectors. -/
structure Position where
  x : Int
  y : Int
deriving DecidableEq, Repr

/-- A mobile unit ("spore"): identity, owning team, position, biomass. -/
structure Spore where
  id : String
  teamId : String
  position : Position
  biomass : Int
deriving DecidableEq, Repr

/-- A structure ("spawner"): identity, owning team, position. -/
structure Spawner where
  id : String
  teamId : String
  position : Position
deriving DecidableEq, Repr

/-- The per-team view: owned spores, owned spawners, nutrient stock. -/
structure TeamInfo where
  spores : List Spore
  spawners : List Spawner
  nutrients : Int

/-- The map: dimensions and the nutrient grid.  The grid is embedded as a
total function `y ↦ x ↦ nutrient` (the Python code indexes `nutrient[y][x]`
only in bounds, where a row-list representation and a function agree). -/
structure GameMap where
  width : Int
  height : Int
  nutrientGrid : Int → Int → Int

/-- The world snapshot: map, all spores, all spawners, per-team infos
(embedded as a function from team id). -/
structure World where
  map : GameMap
  spores : List Spore
  spawners : List Spawner
  teamInfos : String → TeamInfo

/-- Game constants relevant to the bot. -/
structure GameConstants where
  neutralTeamId : String

/-- The full per-tick snapshot (`TeamGameState`). -/
structure TeamGameState where
  tick : Nat
  yourTeamId : String
  constants : GameConstants
  world : World

/-- Actions the bot can emit. -/
inductive Action where
  | sporeCreateSpawner (sporeId : String)
  | spawnerProduceSpore (spawnerId : String) (biomass : Int)
  | sporeMove (sporeId : String) (direction : Position)
  | sporeMoveTo (sporeId : String) (position : Position)
deriving DecidableEq, Repr

/-- The bot's mutable state across ticks (fields of the Python `Bot` object
that are mutated; the numeric knobs are constants below). -/
structure BotState where
  visited : List (Int × Int)
  lastPanicTick : Int
  didInitialBurst : Bool
deriving DecidableEq, Repr

/-- `Bot.__init__`: empty visited set, `_last_panic_spawner_tick = -10**9`,
`_did_initial_spawner_burst = False`. -/
def initialBotState : BotState :=
  { visited := [], lastPanicTick := -(10 ^ 9), didInitialBurst := false }

-- Tuning knobs of `Bot.__init__` (never mutated).

/-- `self.max_spores = 25` -/
def max_spores : Nat := 25

/-- `self.base_spawn_biomass = 4` -/
def base_spawn_biomass : Int := 4

/-- `self.spawn_biomass_cap = 256` -/
def spawn_biomass_cap : Int := 256

/-- `self.produce_every_tick = True` -/
def produce_every_tick : Bool := true

/-- `self.surrounded_threshold = 3` -/
def surrounded_threshold : Nat := 3

/-- `self.neutral_clear_radius = 8` -/
def neutral_clear_radius : Int := 8

/-- `self.attack_spawner_radius = 12` -/
def attack_spawner_radius : Int := 12

/-- `self.enemy_threat_radius = 3` -/
def enemy_threat_radius : Int := 3

/-- `self.panic_spawner_cooldown = 30` -/
def panic_spawner_cooldown : Int := 30

/-- `self.astar_max_expansions = 4000` -/
def astar_max_expansions : Nat := 4000

/-- default `search_radius = 25` of `_pick_unvisited_target` -/
def search_radius : Int := 25

/-- default `samples_outside = 80` of `_pick_unvisited_target` -/
def samples_outside : Nat := 80

/-- `game_message.world.teamInfos[game_message.yourTeamId]` -/
def myTeam (gm : TeamGameState) : TeamInfo :=
  gm.world.teamInfos gm.yourTeamId

/-- `Bot._update_visited`: add every owned spore's position to the visited
set (list embedding of set-add: cons when not already present). -/
def updateVisited (gm : TeamGameState) (visited : List (Int × Int)) :
    List (Int × Int) :=
  (myTeam gm).spores.foldl
    (fun v sp =>
      if (sp.position.x, sp.position.y) ∈ v then v
      else (sp.position.x, sp.position.y) :: v)
    visited

/-- `Bot._current_spawn_biomass`: `min(base * 2 ** (tick // 150), cap)`. -/
def currentSpawnBiomass (tick : Nat) : Int :=
  min (base_spawn_biomass * 2 ^ (tick / 150)) spawn_biomass_cap

/-- `Bot._in_bounds`: `0 <= x < w and 0 <= y < h`. -/
def inBounds (gm : TeamGameState) (x y : Int) : Bool :=
  decide (0 ≤ x ∧ x < gm.world.map.width ∧ 0 ≤ y ∧ y < gm.world.map.height)

/-- `Bot._adjacent_positions`: the 4 neighbors with direction vectors. -/
def adjacentPositions (x y : Int) : List (Int × Int × Position) :=
  [ (x, y - 1, ⟨0, -1⟩),
    (x, y + 1, ⟨0, 1⟩),
    (x - 1, y, ⟨-1, 0⟩),
    (x + 1, y, ⟨1, 0⟩) ]

/-- `Bot._manhattan`. -/
def manhattan (ax ay bx by' : Int) : Int :=
  |ax - bx| + |ay - by'|

/-- `Bot._neutral_spore_positions` (set of positions, as a list). -/
def neutralSporePositions (gm : TeamGameState) : List (Int × Int) :=
  gm.world.spores.filterMap
    (fun sp =>
      if sp.teamId = gm.constants.neutralTeamId then
        some (sp.position.x, sp.position.y)
      else none)

/-- `Bot._neutral_spore_biomass_by_pos` (dict as assoc list; consing in
iteration order makes the first lookup hit the most recent assignment). -/
def neutralSporeBiomassByPos (gm : TeamGameState) :
    List ((Int × Int) × Int) :=
  gm.world.spores.foldl
    (fun out sp =>
      if sp.teamId = gm.constants.neutralTeamId then
        ((sp.position.x, sp.position.y), sp.biomass) :: out
      else out)
    []

/-- `Bot._enemy_spore_positions`: any non-neutral, non-us spore. -/
def enemySporePositions (gm : TeamGameState) : List (Int × Int) :=
  gm.world.spores.filterMap
    (fun sp =>
      if sp.teamId ≠ gm.yourTeamId ∧ sp.teamId ≠ gm.constants.neutralTeamId
      then some (sp.position.x, sp.position.y)
      else none)

/-- `Bot._enemy_spawner_positions`: all enemy spawner tile positions. -/
def enemySpawnerPositions (gm : TeamGameState) : List (Int × Int) :=
  gm.world.spawners.filterMap
    (fun spw =>
      if spw.teamId ≠ gm.yourTeamId ∧ spw.teamId ≠ gm.constants.neutralTeamId
      then some (spw.position.x, spw.position.y)
      else none)

/-- `Bot._enemy_nearby`: true iff some enemy spore is within
`enemy_threat_radius` of some owned spore. -/
def enemyNearby (gm : TeamGameState) (enemyPos : List (Int × Int)) : Bool :=
  if enemyPos = [] ∨ (myTeam gm).spores = [] then false
  else
    (myTeam gm).spores.any fun sp =>
      enemyPos.any fun e =>
        manhattan sp.position.x sp.position.y e.1 e.2 ≤ enemy_threat_radius

/-- A frontier entry of the A* open heap: `(f, g, x, y)` as pushed by
`_astar_next_step`. -/
abbrev AEntry : Type := Nat × Nat × Int × Int

/-- Python tuple `<=` on heap entries (lexicographic on `(f, g, x, y)`). -/
def entryLE (a b : AEntry) : Bool :=
  let (af, ag, ax, ay) := a
  let (bf, bg, bx, by') := b
  decide (af < bf ∨ (af = bf ∧ (ag < bg ∨ (ag = bg ∧
    (ax < bx ∨ (ax = bx ∧ ay ≤ by'))))))

/-- `heapq.heappop` semantics: remove and return the minimum entry.  All
entries in the heap are distinct tuples (each position is re-pushed only with
a strictly smaller `g`), so the binary heap pops exactly the lexicographic
minimum; a sorted extraction is therefore a faithful model. -/
def popMin : List AEntry → Option (AEntry × List AEntry)
  | [] => none
  | e :: rest =>
    match popMin rest with
    | none => some (e, [])
    | some (m, rest') =>
      if entryLE e m then some (e, rest) else some (m, e :: rest')

/-- `g_score.get(key, 10**9)`. -/
def gScoreGet (gScore : List ((Int × Int) × Nat)) (key : Int × Int) : Nat :=
  ((gScore.find? (fun e => e.1 = key)).map (·.2)).getD (10 ^ 9)

/-- `came_from.get(cur)`. -/
def cameFromGet (cameFrom : List ((Int × Int) × (Int × Int)))
    (cur : Int × Int) : Option (Int × Int) :=
  (cameFrom.find? (fun e => e.1 = cur)).map (·.2)

/-- One neighbor step of the A* expansion loop body (`for nx, ny, _dvec in
self._adjacent_positions(x, y)`): skip out-of-bounds, skip blocked (except an
allowed blocked goal), push on strict `g` improvement. -/
def expandStep (gm : TeamGameState) (blocked : List (Int × Int))
    (allow : Bool) (gx gy : Int) (g : Nat)
    (x y : Int)
    (acc : List AEntry × List ((Int × Int) × (Int × Int)) ×
      List ((Int × Int) × Nat))
    (nb : Int × Int × Position) :
    List AEntry × List ((Int × Int) × (Int × Int)) ×
      List ((Int × Int) × Nat) :=
  let (heap, cameFrom, gScore) := acc
  let nx := nb.1
  let ny := nb.2.1
  if inBounds gm nx ny then
    if (nx, ny) ∈ blocked ∧ ¬(allow = true ∧ (nx, ny) = (gx, gy)) then acc
    else
      let tentativeG := g + 1
      if tentativeG < gScoreGet gScore (nx, ny) then
        ((tentativeG + (manhattan nx ny gx gy).toNat, tentativeG, nx, ny)
            :: heap,
          ((nx, ny), (x, y)) :: cameFrom,
          ((nx, ny), tentativeG) :: gScore)
      else acc
  else acc

/-- The full neighbor expansion of a popped node `(x, y)` with cost `g`. -/
def expandNode (gm : TeamGameState) (blocked : List (Int × Int))
    (allow : Bool) (gx gy : Int) (x y : Int) (g : Nat)
    (heap : List AEntry) (cameFrom : List ((Int × Int) × (Int × Int)))
    (gScore : List ((Int × Int) × Nat)) :
    List AEntry × List ((Int × Int) × (Int × Int)) ×
      List ((Int × Int) × Nat) :=
  (adjacentPositions x y).foldl (expandStep gm blocked allow gx gy g x y)
    (heap, cameFrom, gScore)

/-- The predecessor-chain walk of the success branch (`while prev is not None
and prev != (sx, sy)`), fueled: the chain in a run of the Python code is
acyclic and no longer than `came_from`, so the fuel used by the caller never
runs out on a faithful input. -/
def backtrackFuel (cameFrom : List ((Int × Int) × (Int × Int)))
    (sx sy : Int) : Nat → Int × Int → Int × Int
  | 0, cur => cur
  | fuel + 1, cur =>
    match cameFromGet cameFrom cur with
    | none => cur
    | some prev =>
      if prev = (sx, sy) then cur
      else backtrackFuel cameFrom sx sy fuel prev

/-- The success branch of `_astar_next_step`: backtrack from the goal to the
node adjacent to the start and return the coordinate delta. -/
def stepFromBacktrack (cameFrom : List ((Int × Int) × (Int × Int)))
    (sx sy gx gy : Int) : Position :=
  let cur := backtrackFuel cameFrom sx sy (cameFrom.length + 1) (gx, gy)
  ⟨cur.1 - sx, cur.2 - sy⟩

/-- The A* main loop (`while open_heap and expansions <
self.astar_max_expansions`), instrumented with the expansion counter; the
second component of the result is the final value of `expansions`.
`remaining` is the remaining expansion budget `astar_max_expansions -
expansions` (kept as a separate structural-recursion argument; the wrapper
`astarLoop` ties the two together, so `remaining = 0` is exactly the failure
of the loop condition `expansions < astar_max_expansions`). -/
def astarLoopAux (gm : TeamGameState) (sx sy gx gy : Int)
    (blocked : List (Int × Int)) (allow : Bool) :
    (remaining : Nat) → List AEntry →
    List ((Int × Int) × (Int × Int)) → List ((Int × Int) × Nat) →
    (expansions : Nat) → Option Position × Nat
  | 0, _, _, _, expansions => (none, expansions)
  | remaining + 1, heap, cameFrom, gScore, expansions =>
    match popMin heap with
    | none => (none, expansions)
    | some ((_f, g, x, y), rest) =>
      if (x, y) = (gx, gy) then
        (some (stepFromBacktrack cameFrom sx sy gx gy), expansions)
      else
        match expandNode gm blocked allow gx gy x y g rest cameFrom gScore
          with
        | (heap', cameFrom', gScore') =>
          astarLoopAux gm sx sy gx gy blocked allow remaining heap' cameFrom'
            gScore' (expansions + 1)

/-- The A* main loop at expansion counter `expansions`. -/
def astarLoop (gm : TeamGameState) (sx sy gx gy : Int)
    (blocked : List (Int × Int)) (allow : Bool)
    (heap : List AEntry) (cameFrom : List ((Int × Int) × (Int × Int)))
    (gScore : List ((Int × Int) × Nat)) (expansions : Nat) :
    Option Position × Nat :=
  astarLoopAux gm sx sy gx gy blocked allow
    (astar_max_expansions - expansions) heap cameFrom gScore expansions

/-- `Bot._astar_next_step`, instrumented: returns the step (if any) together
with the number of expansions performed. -/
def astarNextStepCore (gm : TeamGameState) (start goal : Position)
    (blocked : List (Int × Int)) (allow : Bool) : Option Position × Nat :=
  let sx := start.x
  let sy := start.y
  let gx := goal.x
  let gy := goal.y
  if (sx, sy) = (gx, gy) then (none, 0)
  else if ¬(inBounds gm gx gy = true) then (none, 0)
  else if (gx, gy) ∈ blocked ∧ ¬(allow = true) then (none, 0)
  else
    astarLoop gm sx sy gx gy blocked allow
      [((manhattan sx sy gx gy).toNat, 0, sx, sy)] [] [((sx, sy), 0)] 0

/-- `Bot._astar_next_step` as called by `get_next_move`. -/
def astarNextStep (gm : TeamGameState) (start goal : Position)
    (blocked : List (Int × Int)) (allow : Bool) : Option Position :=
  (astarNextStepCore gm start goal blocked allow).1

/-- Shared body of `_nearest_neutral_in_radius` and
`_nearest_enemy_spawner_in_radius` (the two Python functions are textually
identical up to the name of the position set).  The accumulator models the
`best`/`best_d` pair, with `best_d = 10**9` while `best is None`. -/
def nearestStep (sx sy radius : Int)
    (best : Option ((Int × Int) × Int)) (p : Int × Int) :
    Option ((Int × Int) × Int) :=
  let d := |p.1 - sx| + |p.2 - sy|
  let bestD := ((best.map (·.2)).getD (10 ^ 9))
  if d ≤ radius ∧ d < bestD then some (p, d) else best

/-- Shared fold of the two nearest-in-radius scans. -/
def nearestInRadius (start : Position) (posList : List (Int × Int))
    (radius : Int) : Option Position :=
  (posList.foldl (nearestStep start.x start.y radius) none).map
    (fun q => ⟨q.1.1, q.1.2⟩)

/-- `Bot._nearest_neutral_in_radius`. -/
def nearestNeutralInRadius (start : Position)
    (neutralPos : List (Int × Int)) (radius : Int) : Option Position :=
  nearestInRadius start neutralPos radius

/-- `Bot._nearest_enemy_spawner_in_radius`. -/
def nearestEnemySpawnerInRadius (start : Position)
    (enemySpawnerPos : List (Int × Int)) (radius : Int) : Option Position :=
  nearestInRadius start enemySpawnerPos radius

/-- One candidate-tile step of `_pick_unvisited_target` (shared between the
window scan and the random-sampling fallback): skip visited, blocked and the
start tile; keep the best score `3 * nutrient - dist`. -/
def scanStep (visited blocked : List (Int × Int)) (sx sy : Int)
    (nutrient : Int → Int → Int)
    (acc : Option ((Int × Int) × Int)) (p : Int × Int) :
    Option ((Int × Int) × Int) :=
  if p ∈ visited then acc
  else if p ∈ blocked then acc
  else
    let dist := |p.1 - sx| + |p.2 - sy|
    if dist = 0 then acc
    else
      let score := nutrient p.2 p.1 * 3 - dist
      match acc with
      | none => some (p, score)
      | some (_, bestScore) =>
        if score > bestScore then some (p, score) else acc

/-- The inclusive integer range `a..b` as a list (empty when `b < a`). -/
def intRange (a b : Int) : List Int :=
  (List.range (b + 1 - a).toNat).map (fun i : Nat => a + (i : Int))

/-- The traversal order of the window scan of `_pick_unvisited_target`
(`y` outer from `y0` to `y1`, `x` inner from `x0` to `x1`). -/
def windowCoords (x0 x1 y0 y1 : Int) : List (Int × Int) :=
  (intRange y0 y1).flatMap (fun y => (intRange x0 x1).map (fun x => (x, y)))

/-- The deterministic window-scan phase of `_pick_unvisited_target`. -/
def pickWindowScan (visited blocked : List (Int × Int)) (sx sy : Int)
    (nutrient : Int → Int → Int) (x0 x1 y0 y1 : Int) :
    Option ((Int × Int) × Int) :=
  (windowCoords x0 x1 y0 y1).foldl (scanStep visited blocked sx sy nutrient)
    none

/-- `Bot._pick_unvisited_target` with its default knobs.  `rng k` stands for
the pair `(random.randint(0, w - 1), random.randint(0, h - 1))` drawn at
sampling attempt `k`. -/
def pickUnvisitedTarget (gm : TeamGameState) (visited : List (Int × Int))
    (start : Position) (blocked : List (Int × Int))
    (rng : Nat → Int × Int) : Option Position :=
  let w := gm.world.map.width
  let h := gm.world.map.height
  let nutrient := gm.world.map.nutrientGrid
  let sx := start.x
  let sy := start.y
  let x0 := max 0 (sx - search_radius)
  let x1 := min (w - 1) (sx + search_radius)
  let y0 := max 0 (sy - search_radius)
  let y1 := min (h - 1) (sy + search_radius)
  match pickWindowScan visited blocked sx sy nutrient x0 x1 y0 y1 with
  | some (p, _) => some ⟨p.1, p.2⟩
  | none =>
    (((List.range samples_outside).foldl
        (fun acc k => scanStep visited blocked sx sy nutrient acc (rng k))
        none).map (fun q => (⟨q.1.1, q.1.2⟩ : Position)))

/-- `Bot._is_surrounded_by_neutrals`: the in-bounds adjacent neutral tiles of
a spore, paired with the direction into each. -/
def isSurroundedByNeutrals (gm : TeamGameState) (spore : Spore)
    (neutralPos : List (Int × Int)) : List (Position × Position) :=
  (adjacentPositions spore.position.x spore.position.y).filterMap
    (fun nb =>
      if inBounds gm nb.1 nb.2.1 ∧ (nb.1, nb.2.1) ∈ neutralPos then
        some (⟨nb.1, nb.2.1⟩, nb.2.2)
      else none)

/-- Python tuple `>` on `(x, y)` pairs (used by the `max(..., key=...)`
calls; `max` keeps the earliest element among equal keys). -/
def pyGtPair (a b : Int × Int) : Bool :=
  decide (b.1 < a.1 ∨ (a.1 = b.1 ∧ b.2 < a.2))

/-- Python `min(l, key=key)` for the non-empty list `b :: l`: the first
element with minimal key (later elements replace only on strict
improvement, as in the manual best-so-far loops of the source). -/
def pyMinBy {A : Type} (key : A → Int) (b : A) (l : List A) : A :=
  l.foldl (fun best x => if key x < key best then x else best) b

/-- Python `max(l, key=key)` for the non-empty list `b :: l`: the first
element with maximal key. -/
def pyMaxBy {A : Type} (key : A → Int) (b : A) (l : List A) : A :=
  l.foldl (fun best x => if key x > key best then x else best) b

/-- Python `max(l, key=key)` with a tuple-valued key (tuple comparison). -/
def pyMaxByPair {A : Type} (key : A → Int × Int) (b : A) (l : List A) : A :=
  l.foldl (fun best x => if pyGtPair (key x) (key best) then x else best) b

/-- The `<=` of Python tuple comparison on `(x, y)` pairs. -/
def lexLePair (a b : Int × Int) : Prop :=
  a.1 < b.1 ∨ (a.1 = b.1 ∧ a.2 ≤ b.2)

/-- `neutral_biomass.get((tile.x, tile.y), 10**9)`. -/
def nbCost (neutralBiomass : List ((Int × Int) × Int)) (tile : Position) :
    Int :=
  ((neutralBiomass.find? (fun e => e.1 = (tile.x, tile.y))).map (·.2)).getD
    (10 ^ 9)

/-- `Bot._choose_sacrifice_target`.  The Python function returns the pair
`(None, None)` or `(spore_id, SporeMoveAction(spore_id, direction))`, always
paired; this is embedded as `Option (id × direction)`.  The incremental
`best_cost` variable always equals the recorded cost of the kept tile, so the
fold recomputes it.  `sacrificeCandidates` is the `candidates` list of the
function body. -/
def sacrificeCandidates (gm : TeamGameState) (mySpores : List Spore)
    (neutralPos : List (Int × Int))
    (neutralBiomass : List ((Int × Int) × Int)) :
    List (Spore × Position × Position) :=
  mySpores.filterMap (fun sp =>
    match isSurroundedByNeutrals gm sp neutralPos with
    | [] => none
    | a :: rest =>
      if (a :: rest).length < surrounded_threshold then none
      else
        some (sp, pyMinBy (fun td => nbCost neutralBiomass td.1) a rest))

def chooseSacrificeTarget (gm : TeamGameState) (mySpores : List Spore)
    (neutralPos : List (Int × Int))
    (neutralBiomass : List ((Int × Int) × Int)) :
    Option (String × Position) :=
  match sacrificeCandidates gm mySpores neutralPos neutralBiomass with
  | [] => none
  | c :: cs =>
    let winner := pyMinBy (fun t => t.1.biomass) c cs
    some (winner.1.id, winner.2.2)

/-- `min(self._manhattan(sx, sy, ex, ey) for ex, ey in enemy_pos)`; only
called with a non-empty `enemy_pos` (the empty case is unreachable and
returns 0). -/
def minDistToEnemy (enemyPos : List (Int × Int)) (sp : Spore) : Int :=
  match enemyPos with
  | [] => 0
  | e :: es =>
    es.foldl
      (fun b e' =>
        let d := manhattan sp.position.x sp.position.y e'.1 e'.2
        if d < b then d else b)
      (manhattan sp.position.x sp.position.y e.1 e.2)

/-- `Bot._pick_safest_spore_for_new_spawner`. -/
def pickSafestSporeForNewSpawner (gm : TeamGameState)
    (enemyPos : List (Int × Int)) : Option Spore :=
  match (myTeam gm).spores with
  | [] => none
  | s0 :: rest =>
    if enemyPos = [] then
      some (pyMaxByPair (fun s => (s.position.x, s.position.y)) s0 rest)
    else
      some (pyMaxBy (minDistToEnemy enemyPos) s0 rest)

/-- The per-spore target selection of `get_next_move` (lines 427-450):
attack a nearby enemy spawner first, else explore to an unvisited tile, else
clear a nearby neutral, else a random in-bounds tile (`fb` stands for the
pair of `random.randint` draws of that fallback); the goal-blocked allowance
is the membership of the final target in the neutral set (always `true` on
the spawner branch). -/
def selectTargetForSpore (gm : TeamGameState) (visited : List (Int × Int))
    (sp : Spore) (blocked neutralPos enemySpawnerPos : List (Int × Int))
    (rng : Nat → Int × Int) (fb : Int × Int) : Position × Bool :=
  match nearestEnemySpawnerInRadius sp.position enemySpawnerPos
      attack_spawner_radius with
  | some t => (t, true)
  | none =>
    let target :=
      match pickUnvisitedTarget gm visited sp.position blocked rng with
      | some t => t
      | none =>
        match nearestNeutralInRadius sp.position neutralPos
            neutral_clear_radius with
        | some t => t
        | none => ⟨fb.1, fb.2⟩
    (target, decide ((target.x, target.y) ∈ neutralPos))

/-- The body of the per-spore movement loop of `get_next_move` (lines
420-463): each iteration appends exactly one action. -/
def movementActionFor (gm : TeamGameState) (visited : List (Int × Int))
    (blocked neutralPos enemySpawnerPos : List (Int × Int))
    (sac : Option (String × Position)) (sp : Spore)
    (rng : Nat → Int × Int) (fb : Int × Int) : Action :=
  if (match sac with
      | some (sid, _) => sp.id == sid
      | none => false : Bool) then
    match sac with
    | some (sid, dvec) => Action.sporeMove sid dvec
    | none => Action.sporeMoveTo sp.id sp.position
  else
    let (target, allowGoalBlocked) :=
      selectTargetForSpore gm visited sp blocked neutralPos enemySpawnerPos
        rng fb
    match astarNextStep gm sp.position target blocked allowGoalBlocked with
    | none => Action.sporeMoveTo sp.id target
    | some dir => Action.sporeMove sp.id dir

/-- The production / sacrifice-arbitration / movement tail of
`get_next_move` (lines 390-465), reached when neither the tick-0 burst, nor
the panic branch, nor the bootstrap branch returned.  The injected random
sources are keyed by spore id (`rc`: the draws of the colony-wide
exploration check; `rm`: the draws of the per-spore movement target; `rf`:
the absolute-fallback target draw). -/
def movementPhase (st : BotState) (gm : TeamGameState)
    (rc rm : String → Nat → Int × Int) (rf : String → Int × Int) :
    BotState × List Action :=
  let myT := myTeam gm
  let neutralPos := neutralSporePositions gm
  let neutralBiomass := neutralSporeBiomassByPos gm
  let enemyPos := enemySporePositions gm
  let enemySpawnerPos := enemySpawnerPositions gm
  let blockedForPath := neutralPos ++ enemyPos ++ enemySpawnerPos
  let prodActions :=
    match myT.spawners with
    | [] => []
    | spw :: _ =>
      if produce_every_tick = true ∧ myT.spores.length < max_spores ∧
          myT.nutrients ≥ currentSpawnBiomass gm.tick then
        [Action.spawnerProduceSpore spw.id (currentSpawnBiomass gm.tick)]
      else []
  let anyUnvisited := myT.spores.any fun sp =>
    (pickUnvisitedTarget gm st.visited sp.position blockedForPath
      (rc sp.id)).isSome
  let sac :=
    if anyUnvisited then none
    else chooseSacrificeTarget gm myT.spores neutralPos neutralBiomass
  let moves := myT.spores.map fun sp =>
    movementActionFor gm st.visited blockedForPath neutralPos
      enemySpawnerPos sac sp (rm sp.id) (rf sp.id)
  (st, prodActions ++ moves)

/-- Lines 385-388 of `get_next_move`: the bootstrap-structure early return,
else fall through to the tail. -/
def getNextMoveTail (st : BotState) (gm : TeamGameState)
    (rc rm : String → Nat → Int × Int) (rf : String → Int × Int) :
    BotState × List Action :=
  match (myTeam gm).spawners, (myTeam gm).spores with
  | [], sp0 :: _ => (st, [Action.sporeCreateSpawner sp0.id])
  | _, _ => movementPhase st gm rc rm rf

/-- `Bot.get_next_move`, with the bot state passed and returned explicitly
and injected random sources. -/
def getNextMove (st : BotState) (gm : TeamGameState)
    (rc rm : String → Nat → Int × Int) (rf : String → Int × Int) :
    BotState × List Action :=
  let st1 : BotState := { st with visited := updateVisited gm st.visited }
  let myT := myTeam gm
  let enemyPos := enemySporePositions gm
  if gm.tick = 0 ∧ st1.didInitialBurst = false then
    ({ st1 with didInitialBurst := true },
      myT.spores.map (fun sp => Action.sporeCreateSpawner sp.id))
  else if enemyNearby gm enemyPos = true ∧
      (gm.tick : Int) - st1.lastPanicTick ≥ panic_spawner_cooldown then
    match pickSafestSporeForNewSpawner gm enemyPos with
    | some safest =>
      if myT.spawners.length < 3 then
        ({ st1 with lastPanicTick := (gm.tick : Int) },
          [Action.sporeCreateSpawner safest.id])
      else getNextMoveTail st1 gm rc rm rf
    | none => getNextMoveTail st1 gm rc rm rf
  else getNextMoveTail st1 gm rc rm rf

/-- The exact condition under which the panic branch of `get_next_move`
appends its action and returns early. -/
def panicFires (st : BotState) (gm : TeamGameState) : Prop :=
  enemyNearby gm (enemySporePositions gm) = true ∧
    (gm.tick : Int) - st.lastPanicTick ≥ panic_spawner_cooldown ∧
    (pickSafestSporeForNewSpawner gm (enemySporePositions gm)).isSome ∧
    (myTeam gm).spawners.length < 3

instance (st : BotState) (gm : TeamGameState) :
    Decidable (panicFires st gm) := by
  unfold panicFires; infer_instance

/-- The exact condition under which the bootstrap branch of `get_next_move`
(lines 386-388) appends its action and returns early. -/
def bootstrapFires (gm : TeamGameState) : Prop :=
  (myTeam gm).spawners = [] ∧ (myTeam gm).spores ≠ []

instance (gm : TeamGameState) : Decidable (bootstrapFires gm) := by
  unfold bootstrapFires; infer_instance

/-- The exact condition under which the tick-0 initial-burst branch fires. -/
def burstFires (st : BotState) (gm : TeamGameState) : Prop :=
  gm.tick = 0 ∧ st.didInitialBurst = false

instance (st : BotState) (gm : TeamGameState) :
    Decidable (burstFires st gm) := by
  unfold burstFires; infer_instance

/-- The spore a given action is addressed to (none for a production
action, which is addressed to a spawner). -/
def unitActionId : Action → Option String
  | .sporeCreateSpawner i => some i
  | .spawnerProduceSpore _ _ => none
  | .sporeMove i _ => some i
  | .sporeMoveTo i _ => some i

/-- Movement actions (single-step or absolute). -/
def isMovementAction : Action → Bool
  | .sporeMove _ _ => true
  | .sporeMoveTo _ _ => true
  | _ => false

/-- Is the action a produce-unit action? -/
def isProduceAction : Action → Bool
  | .spawnerProduceSpore _ _ => true
  | _ => false

/-- Is the action a structure-creation action? -/
def isCreateSpawnerAction : Action → Bool
  | .sporeCreateSpawner _ => true
  | _ => false

/-- A whole run of the engine over a list of snapshots, threading the bot
state; `k` indexes the per-tick random sources. -/
def runBotAux (rc rm : Nat → String → Nat → Int × Int)
    (rf : Nat → String → Int × Int) :
    Nat → BotState → List TeamGameState → BotState
  | _, st, [] => st
  | k, st, g :: gs =>
    runBotAux rc rm rf (k + 1) (getNextMove st g (rc k) (rm k) (rf k)).1 gs

/-- The own-unit positions of a snapshot. -/
def ownPositions (gm : TeamGameState) : List (Int × Int) :=
  (myTeam gm).spores.map (fun sp => (sp.position.x, sp.position.y))

/-- The four tiles adjacent to a goal tile (the "approaches" of the spec). -/
def goalNeighborTiles (goal : Position) : List (Int × Int) :=
  [ (goal.x, goal.y - 1), (goal.x, goal.y + 1),
    (goal.x - 1, goal.y), (goal.x + 1, goal.y) ]

-- Concrete snapshots used by witnesses and counterexamples.

/-- An empty per-team view. -/
def emptyTeam : TeamInfo := { spores := [], spawners := [], nutrients := 0 }

/-- A 5x5 zero-nutrient snapshot with no units at all. -/
def gmEmpty5 : TeamGameState :=
  { tick := 1, yourTeamId := "us",
    constants := { neutralTeamId := "n" },
    world :=
      { map := { width := 5, height := 5, nutrientGrid := fun _ _ => 0 },
        spores := [], spawners := [],
        teamInfos := fun _ => emptyTeam } }

/-- A 3x3 zero-nutrient snapshot with an enemy spawner at (2,2). -/
def gmScan3 : TeamGameState :=
  { tick := 1, yourTeamId := "us",
    constants := { neutralTeamId := "n" },
    world :=
      { map := { width := 3, height := 3, nutrientGrid := fun _ _ => 0 },
        spores := [], spawners := [⟨"es", "them", ⟨2, 2⟩⟩],
        teamInfos := fun _ => emptyTeam } }

/-- A snapshot with two own spores at (0,4) and (4,0), equally distant from
an enemy at the origin. -/
def gmSafest : TeamGameState :=
  { tick := 1, yourTeamId := "us",
    constants := { neutralTeamId := "n" },
    world :=
      { map := { width := 10, height := 10, nutrientGrid := fun _ _ => 0 },
        spores :=
          [⟨"a", "us", ⟨0, 4⟩, 1⟩, ⟨"b", "us", ⟨4, 0⟩, 1⟩,
            ⟨"e", "them", ⟨0, 0⟩, 1⟩],
        spawners := [],
        teamInfos := fun t =>
          if t = "us" then
            { spores := [⟨"a", "us", ⟨0, 4⟩, 1⟩, ⟨"b", "us", ⟨4, 0⟩, 1⟩],
              spawners := [], nutrients := 0 }
          else emptyTeam } }

/-- A snapshot with one own spore at (1,1) surrounded by three neutral
spores of biomasses 7, 5, 9. -/
def gmSac : TeamGameState :=
  { tick := 1, yourTeamId := "us",
    constants := { neutralTeamId := "n" },
    world :=
      { map := { width := 3, height := 3, nutrientGrid := fun _ _ => 0 },
        spores :=
          [⟨"n1", "n", ⟨1, 0⟩, 7⟩, ⟨"n2", "n", ⟨0, 1⟩, 5⟩,
            ⟨"n3", "n", ⟨2, 1⟩, 9⟩, ⟨"s", "us", ⟨1, 1⟩, 2⟩],
        spawners := [],
        teamInfos := fun t =>
          if t = "us" then
            { spores := [⟨"s", "us", ⟨1, 1⟩, 2⟩], spawners := [],
              nutrients := 0 }
          else emptyTeam } }

/-- A non-zero tick with two own spores, no spawners and no enemies: the
bootstrap branch of `get_next_move` fires. -/
def gmBoot : TeamGameState :=
  { tick := 1, yourTeamId := "us",
    constants := { neutralTeamId := "n" },
    world :=
      { map := { width := 3, height := 3, nutrientGrid := fun _ _ => 0 },
        spores := [⟨"s0", "us", ⟨0, 0⟩, 1⟩, ⟨"s1", "us", ⟨2, 2⟩, 1⟩],
        spawners := [],
        teamInfos := fun t =>
          if t = "us" then
            { spores := [⟨"s0", "us", ⟨0, 0⟩, 1⟩, ⟨"s1", "us", ⟨2, 2⟩, 1⟩],
              spawners := [], nutrients := 100 }
          else emptyTeam } }

/-- A normal tick on a 1x1 map: one own spore, one own spawner, rich. -/
def gmNorm : TeamGameState :=
  { tick := 1, yourTeamId := "us",
    constants := { neutralTeamId := "n" },
    world :=
      { map := { width := 1, height := 1, nutrientGrid := fun _ _ => 0 },
        spores := [⟨"s0", "us", ⟨0, 0⟩, 1⟩],
        spawners := [⟨"w0", "us", ⟨0, 0⟩⟩],
        teamInfos := fun t =>
          if t = "us" then
            { spores := [⟨"s0", "us", ⟨0, 0⟩, 1⟩],
              spawners := [⟨"w0", "us", ⟨0, 0⟩⟩], nutrients := 100 }
          else emptyTeam } }

/-- Like `gmNorm` but with only 3 nutrients (below the tick-1 cost 4). -/
def gmPoor : TeamGameState :=
  { tick := 1, yourTeamId := "us",
    constants := { neutralTeamId := "n" },
    world :=
      { map := { width := 1, height := 1, nutrientGrid := fun _ _ => 0 },
        spores := [⟨"s0", "us", ⟨0, 0⟩, 1⟩],
        spawners := [⟨"w0", "us", ⟨0, 0⟩⟩],
        teamInfos := fun t =>
          if t = "us" then
            { spores := [⟨"s0", "us", ⟨0, 0⟩, 1⟩],
              spawners := [⟨"w0", "us", ⟨0, 0⟩⟩], nutrients := 3 }
          else emptyTeam } }

/-- The filter of a scan-step candidate, as a predicate: not visited, not
blocked, not the start tile. -/
def scanOk (visited blocked : List (Int × Int)) (sx sy : Int)
    (p : Int × Int) : Prop :=
  p ∉ visited ∧ p ∉ blocked ∧ |p.1 - sx| + |p.2 - sy| ≠ 0

instance (visited blocked : List (Int × Int)) (sx sy : Int)
    (p : Int × Int) : Decidable (scanOk visited blocked sx sy p) := by
  unfold scanOk; infer_instance

/-- The score of a scan candidate: `3 * nutrient - manhattan distance`. -/
def scanScore (sx sy : Int) (nutrient : Int → Int → Int) (p : Int × Int) :
    Int :=
  nutrient p.2 p.1 * 3 - (|p.1 - sx| + |p.2 - sy|)

/-- A constant random source used by witnesses. -/
def rngZero : Nat → Int × Int := fun _ => (0, 0)

/-- A constant per-spore random source used by witnesses. -/
def rngZero2 : String → Nat → Int × Int := fun _ _ => (0, 0)

/-- A constant per-spore fallback draw used by witnesses. -/
def rngZero1 : String → Int × Int := fun _ => (0, 0)

/-! ## Theorems -/

/-- The expansion counter grows by at most the remaining budget. -/
theorem astarLoopAux_expansions_le (gm : TeamGameState) (sx sy gx gy : Int)
    (blocked : List (Int × Int)) (allow : Bool) :
    ∀ (r : Nat) (heap : List AEntry) cf gs (e : Nat),
      (astarLoopAux gm sx sy gx gy blocked allow r heap cf gs e).2 ≤ e + r := by
  intro r
  induction r with
  | zero => intro heap cf gs e; simp [astarLoopAux]
  | succ n ih =>
    intro heap cf gs e
    unfold astarLoopAux
    cases hpop : popMin heap with
    | none => simp
    | some pr =>
      obtain ⟨⟨f, g, x, y⟩, rest⟩ := pr
      by_cases hg : (x, y) = (gx, gy)
      · simp [hg]
      · simp only [hg, if_false, if_neg hg]
        rcases hexp : expandNode gm blocked allow gx gy x y g rest cf gs
          with ⟨h', cf', gs'⟩
        dsimp only
        have := ih h' cf' gs' (e + 1)
        omega

/-- C4: for every start, goal and blocked set, the bounded A* search
terminates (it is a total function), its expansion counter never exceeds
`astar_max_expansions = 4000`, and the main loop returns `none` both when
the frontier is exhausted and when the expansion cap is reached without
reaching the goal. -/
theorem astar_bounded_and_cap (gm : TeamGameState) (start goal : Position)
    (blocked : List (Int × Int)) (allow : Bool) :
    (astarNextStepCore gm start goal blocked allow).2 ≤
        astar_max_expansions ∧
    (∀ cf gs e,
      astarLoop gm start.x start.y goal.x goal.y blocked allow [] cf gs e =
        (none, e)) ∧
    (∀ heap cf gs e, astar_max_expansions ≤ e →
      astarLoop gm start.x start.y goal.x goal.y blocked allow heap cf gs e =
        (none, e)) := by
  refine ⟨?_, ?_, ?_⟩
  · unfold astarNextStepCore astarLoop
    dsimp only
    split
    · simp
    · split
      · simp
      · split
        · simp
        · have := astarLoopAux_expansions_le gm start.x start.y goal.x
            goal.y blocked allow (astar_max_expansions - 0)
            [((manhattan start.x start.y goal.x goal.y).toNat, 0, start.x,
              start.y)] [] [((start.x, start.y), 0)] 0
          omega
  · intro cf gs e
    unfold astarLoop
    cases astar_max_expansions - e <;> rfl
  · intro heap cf gs e h
    unfold astarLoop
    have hz : astar_max_expansions - e = 0 := by omega
    rw [hz]
    rfl

/-- Witness for C4 at concrete inputs. -/
theorem astar_bounded_and_cap_witness :
    (astarNextStepCore gmEmpty5 ⟨0, 0⟩ ⟨3, 0⟩ [] false).2 ≤
        astar_max_expansions ∧
    astarLoop gmEmpty5 0 0 3 0 [] false [] [] [] 7 = (none, 7) ∧
    (astar_max_expansions ≤ 4000 ∧
      astarLoop gmEmpty5 0 0 3 0 [] false [(3, 0, 0, 0)] [] [] 4000 =
        (none, 4000)) :=
  ⟨(astar_bounded_and_cap gmEmpty5 ⟨0, 0⟩ ⟨3, 0⟩ [] false).1,
    (astar_bounded_and_cap gmEmpty5 ⟨0, 0⟩ ⟨3, 0⟩ [] false).2.1 [] [] 7,
    by decide,
    (astar_bounded_and_cap gmEmpty5 ⟨0, 0⟩ ⟨3, 0⟩ [] false).2.2
      [(3, 0, 0, 0)] [] [] 4000 (by decide)⟩

/-- C8: `next_step` returns `none` with zero expansions (no search) when
start equals goal, or the goal is out of bounds, or the goal is blocked
without the allowance flag. -/
theorem astar_early_return (gm : TeamGameState) (start goal : Position)
    (blocked : List (Int × Int)) (allow : Bool)
    (h : (start.x, start.y) = (goal.x, goal.y) ∨
      inBounds gm goal.x goal.y = false ∨
      ((goal.x, goal.y) ∈ blocked ∧ allow = false)) :
    astarNextStepCore gm start goal blocked allow = (none, 0) := by
  unfold astarNextStepCore
  rcases h with h1 | h2 | ⟨h3, h4⟩
  · simp [h1]
  · simp [h2]
  · subst h4
    simp [h3]

/-- Witness for C8 at concrete inputs (all three guards, one per case). -/
theorem astar_early_return_witness :
    (astarNextStepCore gmEmpty5 ⟨2, 2⟩ ⟨2, 2⟩ [] false = (none, 0)) ∧
    (inBounds gmEmpty5 9 9 = false ∧
      astarNextStepCore gmEmpty5 ⟨0, 0⟩ ⟨9, 9⟩ [] false = (none, 0)) ∧
    (((2 : Int), (0 : Int)) ∈ [((2 : Int), (0 : Int))] ∧
      astarNextStepCore gmEmpty5 ⟨0, 0⟩ ⟨2, 0⟩ [(2, 0)] false = (none, 0)) :=
  ⟨astar_early_return gmEmpty5 ⟨2, 2⟩ ⟨2, 2⟩ [] false (Or.inl rfl),
    ⟨by decide,
      astar_early_return gmEmpty5 ⟨0, 0⟩ ⟨9, 9⟩ [] false
        (Or.inr (Or.inl (by decide)))⟩,
    ⟨by decide,
      astar_early_return gmEmpty5 ⟨0, 0⟩ ⟨2, 0⟩ [(2, 0)] false
        (Or.inr (Or.inr ⟨by decide, rfl⟩))⟩⟩

/-- `popMin` returns an element of the heap, and the remainder is made of
elements of the heap. -/
theorem popMin_mem :
    ∀ (l : List AEntry) (e : AEntry) (rest : List AEntry),
      popMin l = some (e, rest) → e ∈ l ∧ ∀ x ∈ rest, x ∈ l := by
  intro l
  induction l with
  | nil => intro e rest h; simp [popMin] at h
  | cons a as ih =>
    intro e rest h
    unfold popMin at h
    cases hp : popMin as with
    | none =>
      rw [hp] at h
      simp only [Option.some.injEq, Prod.mk.injEq] at h
      obtain ⟨he, hrest⟩ := h
      subst he; subst hrest
      exact ⟨List.mem_cons_self a as, by simp⟩
    | some pr =>
      obtain ⟨m, rest'⟩ := pr
      rw [hp] at h
      dsimp only at h
      by_cases hle : entryLE a m = true
      · rw [if_pos hle] at h
        simp only [Option.some.injEq, Prod.mk.injEq] at h
        obtain ⟨he, hrest⟩ := h
        subst he; subst hrest
        exact ⟨List.mem_cons_self a as,
          fun x hx => List.mem_cons_of_mem a hx⟩
      · rw [if_neg hle] at h
        simp only [Option.some.injEq, Prod.mk.injEq] at h
        obtain ⟨he, hrest⟩ := h
        subst he; subst hrest
        obtain ⟨hm, hsub⟩ := ih m rest' hp
        refine ⟨List.mem_cons_of_mem a hm, ?_⟩
        intro x hx
        cases hx with
        | head => exact List.mem_cons_self a as
        | tail _ hx' => exact List.mem_cons_of_mem a (hsub x hx')

/-- Every entry of the heap after a neighbor-expansion fold is either an
entry of the incoming heap or a pushed neighbor that passed the
blocked-tile check. -/
theorem expandFold_heap_mem (gm : TeamGameState)
    (blocked : List (Int × Int)) (allow : Bool) (gx gy : Int) (g : Nat)
    (x y : Int) :
    ∀ (l : List (Int × Int × Position))
      (acc : List AEntry × List ((Int × Int) × (Int × Int)) ×
        List ((Int × Int) × Nat)) (e : AEntry),
      e ∈ (l.foldl (expandStep gm blocked allow gx gy g x y) acc).1 →
      e ∈ acc.1 ∨ ∃ nb ∈ l,
        ¬((nb.1, nb.2.1) ∈ blocked ∧
          ¬(allow = true ∧ (nb.1, nb.2.1) = (gx, gy))) ∧
        e = (g + 1 + (manhattan nb.1 nb.2.1 gx gy).toNat, g + 1, nb.1,
          nb.2.1) := by
  intro l
  induction l with
  | nil => intro acc e he; exact Or.inl he
  | cons nb rest ih =>
    intro acc e he
    rw [List.foldl_cons] at he
    rcases ih (expandStep gm blocked allow gx gy g x y acc nb) e he with
      h1 | ⟨nb', hnb', hcond, heq⟩
    · obtain ⟨heap, cf, gs⟩ := acc
      unfold expandStep at h1
      dsimp only at h1
      split at h1
      · split at h1
        · exact Or.inl h1
        · split at h1
          · rcases List.mem_cons.1 h1 with he' | he'
            · rename_i hblk _
              exact Or.inr ⟨nb, List.mem_cons_self nb rest, hblk, he'⟩
            · exact Or.inl he'
          · exact Or.inl h1
      · exact Or.inl h1
    · exact Or.inr ⟨nb', List.mem_cons_of_mem nb hnb', hcond, heq⟩

/-- Under the hypotheses of the amended C9 (all approaches to the goal are
blocked) the loop never pops the goal and returns `none`, provided no heap
entry sits on the goal or its neighbors. -/
theorem astarLoopAux_isolated_none (gm : TeamGameState) (sx sy : Int)
    (goal : Position) (blocked : List (Int × Int))
    (hnb : ∀ p ∈ goalNeighborTiles goal, p ∈ blocked) :
    ∀ (r : Nat) (heap : List AEntry) cf gs (e : Nat),
      (∀ f g x y, ((f, g, x, y) : AEntry) ∈ heap →
        (x, y) ≠ (goal.x, goal.y) ∧ (x, y) ∉ goalNeighborTiles goal) →
      (astarLoopAux gm sx sy goal.x goal.y blocked true r heap cf gs e).1 =
        none := by
  intro r
  induction r with
  | zero => intro heap cf gs e _; rfl
  | succ n ih =>
    intro heap cf gs e hinv
    unfold astarLoopAux
    cases hpop : popMin heap with
    | none => rfl
    | some pr =>
      obtain ⟨⟨f, g, x, y⟩, rest⟩ := pr
      obtain ⟨hmem, hrest⟩ := popMin_mem heap _ _ hpop
      obtain ⟨hxgoal, hxnb⟩ := hinv f g x y hmem
      dsimp only
      rw [if_neg hxgoal]
      rcases hexp : expandNode gm blocked true goal.x goal.y x y g rest cf
        gs with ⟨h', cf', gs'⟩
      dsimp only
      apply ih
      intro f' g' x' y' hmem'
      unfold expandNode at hexp
      have hh : ((adjacentPositions x y).foldl
          (expandStep gm blocked true goal.x goal.y g x y)
          (rest, cf, gs)).1 = h' := by rw [hexp]
      rw [← hh] at hmem'
      rcases expandFold_heap_mem gm blocked true goal.x goal.y g x y
        (adjacentPositions x y) (rest, cf, gs) _ hmem' with
        hold | ⟨nb2, hnbmem, hcond, heq⟩
      · exact hinv f' g' x' y' (hrest _ hold)
      · simp only [Prod.mk.injEq] at heq
        obtain ⟨_, _, hx', hy'⟩ := heq
        subst hx'; subst hy'
        have hne : (nb2.1, nb2.2.1) ≠ (goal.x, goal.y) := by
          intro hcontra
          apply hxnb
          simp only [adjacentPositions, List.mem_cons,
            List.mem_singleton, List.not_mem_nil, or_false] at hnbmem
          simp only [Prod.mk.injEq] at hcontra
          rcases hnbmem with h | h | h | h <;>
            (rw [h] at hcontra; dsimp only at hcontra;
              simp only [goalNeighborTiles, List.mem_cons,
                List.mem_singleton, Prod.mk.injEq];
              omega)
        refine ⟨hne, ?_⟩
        intro hcontra
        exact hcond ⟨hnb _ hcontra, fun hc => hne hc.2⟩

/-- C9 (amended): if the goal is blocked, the allowance flag is set, all
four approaches to the goal are blocked, and the start is neither the goal
nor one of its four approaches, `next_step` returns `none`. -/
theorem astar_goal_isolated_none (gm : TeamGameState)
    (start goal : Position) (blocked : List (Int × Int))
    (h1 : (start.x, start.y) ≠ (goal.x, goal.y))
    (h2 : (start.x, start.y) ∉ goalNeighborTiles goal)
    (_h3 : (goal.x, goal.y) ∈ blocked)
    (h4 : ∀ p ∈ goalNeighborTiles goal, p ∈ blocked) :
    astarNextStep gm start goal blocked true = none := by
  unfold astarNextStep astarNextStepCore
  dsimp only
  rw [if_neg h1]
  by_cases hib : inBounds gm goal.x goal.y = true
  · rw [if_neg (by simp [hib])]
    rw [if_neg (by simp)]
    unfold astarLoop
    apply astarLoopAux_isolated_none gm start.x start.y goal blocked h4
    intro f g x y hm
    simp only [List.mem_singleton, Prod.mk.injEq] at hm
    obtain ⟨_, _, hx, hy⟩ := hm
    subst hx; subst hy
    exact ⟨h1, h2⟩
  · rw [if_pos (by simpa using hib)]

/-- C9 counterexample: with the start itself adjacent to the (blocked)
goal and all four approaches to the goal blocked, `next_step` still steps
onto the goal, refuting the unrestricted claim. -/
theorem astar_goal_isolated_counterexample :
    (((0 : Int), (0 : Int)) ≠ ((1 : Int), (0 : Int))) ∧
    ((1 : Int), (0 : Int)) ∈
      ([(1, 0), (0, 0), (2, 0), (1, 1), (1, -1)] : List (Int × Int)) ∧
    (∀ p ∈ goalNeighborTiles ⟨1, 0⟩,
      p ∈ ([(1, 0), (0, 0), (2, 0), (1, 1), (1, -1)] :
        List (Int × Int))) ∧
    astarNextStep gmEmpty5 ⟨0, 0⟩ ⟨1, 0⟩
      [(1, 0), (0, 0), (2, 0), (1, 1), (1, -1)] true = some ⟨1, 0⟩ := by
  exact ⟨by decide, by decide, by decide, by rfl⟩

/-- Witness for the amended C9 at concrete inputs. -/
theorem astar_goal_isolated_none_witness :
    (((0 : Int), (0 : Int)) ≠ ((3 : Int), (0 : Int))) ∧
    ((0 : Int), (0 : Int)) ∉ goalNeighborTiles ⟨3, 0⟩ ∧
    ((3 : Int), (0 : Int)) ∈
      ([(3, 0), (2, 0), (4, 0), (3, -1), (3, 1)] : List (Int × Int)) ∧
    (∀ p ∈ goalNeighborTiles ⟨3, 0⟩,
      p ∈ ([(3, 0), (2, 0), (4, 0), (3, -1), (3, 1)] :
        List (Int × Int))) ∧
    astarNextStep gmEmpty5 ⟨0, 0⟩ ⟨3, 0⟩
      [(3, 0), (2, 0), (4, 0), (3, -1), (3, 1)] true = none :=
  ⟨by decide, by decide, by decide, by decide,
    astar_goal_isolated_none gmEmpty5 ⟨0, 0⟩ ⟨3, 0⟩
      [(3, 0), (2, 0), (4, 0), (3, -1), (3, 1)]
      (by decide) (by decide) (by decide) (by decide)⟩

/-- Membership in `intRange`. -/
theorem mem_intRange (a b k : Int) : k ∈ intRange a b ↔ a ≤ k ∧ k ≤ b := by
  unfold intRange
  rw [List.mem_map]
  constructor
  · rintro ⟨i, hi, rfl⟩
    rw [List.mem_range] at hi
    omega
  · rintro ⟨h1, h2⟩
    refine ⟨(k - a).toNat, ?_, by omega⟩
    rw [List.mem_range]
    omega

/-- Membership in the scan window. -/
theorem mem_windowCoords (x0 x1 y0 y1 : Int) (p : Int × Int) :
    p ∈ windowCoords x0 x1 y0 y1 ↔
      x0 ≤ p.1 ∧ p.1 ≤ x1 ∧ y0 ≤ p.2 ∧ p.2 ≤ y1 := by
  obtain ⟨px, py⟩ := p
  unfold windowCoords
  simp only [List.mem_flatMap, List.mem_map, mem_intRange, Prod.mk.injEq]
  constructor
  · rintro ⟨y, hy, x, hx, rfl, rfl⟩
    exact ⟨hx.1, hx.2, hy.1, hy.2⟩
  · rintro ⟨h1, h2, h3, h4⟩
    exact ⟨py, ⟨h3, h4⟩, px, ⟨h1, h2⟩, rfl, rfl⟩

/-- `scanStep` in terms of the filter predicate and the score. -/
theorem scanStep_eq (visited blocked : List (Int × Int)) (sx sy : Int)
    (nutrient : Int → Int → Int) (acc : Option ((Int × Int) × Int))
    (q : Int × Int) :
    scanStep visited blocked sx sy nutrient acc q =
      if scanOk visited blocked sx sy q then
        match acc with
        | none => some (q, scanScore sx sy nutrient q)
        | some (bp, bs) =>
          if scanScore sx sy nutrient q > bs then
            some (q, scanScore sx sy nutrient q)
          else some (bp, bs)
      else acc := by
  unfold scanStep scanOk scanScore
  by_cases h1 : q ∈ visited
  · simp [h1]
  · by_cases h2 : q ∈ blocked
    · simp [h1, h2]
    · by_cases h3 : |q.1 - sx| + |q.2 - sy| = 0
      · simp [h1, h2, h3]
      · cases acc with
        | none => simp [h1, h2, h3]
        | some b => obtain ⟨bp, bs⟩ := b; simp [h1, h2, h3]

/-- Characterization of a `some` result of the scan fold: it is the
incoming accumulator or a candidate of the list that passed all filters,
carrying its exact score. -/
theorem scanFold_char (visited blocked : List (Int × Int)) (sx sy : Int)
    (nutrient : Int → Int → Int) :
    ∀ (l : List (Int × Int)) (acc : Option ((Int × Int) × Int))
      (p : Int × Int) (s : Int),
      l.foldl (scanStep visited blocked sx sy nutrient) acc = some (p, s) →
      acc = some (p, s) ∨
        (p ∈ l ∧ scanOk visited blocked sx sy p ∧
          s = scanScore sx sy nutrient p) := by
  intro l
  induction l with
  | nil => intro acc p s h; exact Or.inl h
  | cons q rest ih =>
    intro acc p s h
    rw [List.foldl_cons] at h
    rcases ih _ p s h with hstep | ⟨hmem, hok, hs⟩
    · rw [scanStep_eq] at hstep
      by_cases hok : scanOk visited blocked sx sy q
      · rw [if_pos hok] at hstep
        cases acc with
        | none =>
          simp only [Option.some.injEq, Prod.mk.injEq] at hstep
          obtain ⟨hp, hs⟩ := hstep
          exact Or.inr ⟨hp ▸ List.mem_cons_self q rest, hp ▸ hok,
            by rw [← hp, ← hs]⟩
        | some b =>
          obtain ⟨bp, bs⟩ := b
          dsimp only at hstep
          by_cases h4 : scanScore sx sy nutrient q > bs
          · rw [if_pos h4] at hstep
            simp only [Option.some.injEq, Prod.mk.injEq] at hstep
            obtain ⟨hp, hs⟩ := hstep
            exact Or.inr ⟨hp ▸ List.mem_cons_self q rest, hp ▸ hok,
              by rw [← hp, ← hs]⟩
          · rw [if_neg h4] at hstep
            exact Or.inl hstep
      · rw [if_neg hok] at hstep
        exact Or.inl hstep
    · exact Or.inr ⟨List.mem_cons_of_mem q hmem, hok, hs⟩

/-- The scan fold never drops the accumulator and its best score never
decreases. -/
theorem scanFold_mono (visited blocked : List (Int × Int)) (sx sy : Int)
    (nutrient : Int → Int → Int) :
    ∀ (l : List (Int × Int)) (b : (Int × Int) × Int),
      ∃ c, l.foldl (scanStep visited blocked sx sy nutrient) (some b) =
        some c ∧ b.2 ≤ c.2 := by
  intro l
  induction l with
  | nil => intro b; exact ⟨b, rfl, le_refl _⟩
  | cons q rest ih =>
    intro b
    rw [List.foldl_cons, scanStep_eq]
    by_cases hok : scanOk visited blocked sx sy q
    · rw [if_pos hok]
      obtain ⟨bp, bs⟩ := b
      dsimp only
      by_cases h4 : scanScore sx sy nutrient q > bs
      · rw [if_pos h4]
        obtain ⟨c, hc, hc2⟩ := ih (q, scanScore sx sy nutrient q)
        exact ⟨c, hc, le_trans (le_of_lt h4) hc2⟩
      · rw [if_neg h4]
        exact ih (bp, bs)
    · rw [if_neg hok]
      exact ih b

/-- Any candidate of the list passing the filters forces the scan fold to
return a result whose score is at least the candidate's. -/
theorem scanFold_ge (visited blocked : List (Int × Int)) (sx sy : Int)
    (nutrient : Int → Int → Int) :
    ∀ (l : List (Int × Int)) (acc : Option ((Int × Int) × Int))
      (q : Int × Int),
      q ∈ l → scanOk visited blocked sx sy q →
      ∃ c, l.foldl (scanStep visited blocked sx sy nutrient) acc = some c ∧
        scanScore sx sy nutrient q ≤ c.2 := by
  intro l
  induction l with
  | nil => intro acc q hq; exact absurd hq (List.not_mem_nil q)
  | cons a rest ih =>
    intro acc q hq hok
    rw [List.foldl_cons]
    rcases List.mem_cons.1 hq with rfl | hq'
    · rw [scanStep_eq, if_pos hok]
      cases acc with
      | none =>
        exact scanFold_mono visited blocked sx sy nutrient rest
          (q, scanScore sx sy nutrient q)
      | some b =>
        obtain ⟨bp, bs⟩ := b
        dsimp only
        by_cases h4 : scanScore sx sy nutrient q > bs
        · rw [if_pos h4]
          exact scanFold_mono visited blocked sx sy nutrient rest
            (q, scanScore sx sy nutrient q)
        · rw [if_neg h4]
          obtain ⟨c, hc, hcle⟩ := scanFold_mono visited blocked sx sy
            nutrient rest (bp, bs)
          exact ⟨c, hc, le_trans (by omega) hcle⟩
    · exact ih _ q hq' hok

/-- C5: whenever the window scan of `_pick_unvisited_target` keeps a tile,
that tile lies in the clipped square window of side `2 * 25 + 1` centered
on the start, is not visited, not blocked, not the start, and its recorded
score `3 * nutrient - manhattan` is maximal among all tiles of the window
passing those filters. -/
theorem pickWindowScan_spec (gm : TeamGameState)
    (visited blocked : List (Int × Int)) (start : Position)
    (p : Int × Int) (s : Int)
    (h : pickWindowScan visited blocked start.x start.y
      gm.world.map.nutrientGrid
      (max 0 (start.x - search_radius))
      (min (gm.world.map.width - 1) (start.x + search_radius))
      (max 0 (start.y - search_radius))
      (min (gm.world.map.height - 1) (start.y + search_radius)) =
      some (p, s)) :
    (max 0 (start.x - search_radius) ≤ p.1 ∧
      p.1 ≤ min (gm.world.map.width - 1) (start.x + search_radius) ∧
      max 0 (start.y - search_radius) ≤ p.2 ∧
      p.2 ≤ min (gm.world.map.height - 1) (start.y + search_radius)) ∧
    p ∉ visited ∧ p ∉ blocked ∧ p ≠ (start.x, start.y) ∧
    s = 3 * gm.world.map.nutrientGrid p.2 p.1 -
      manhattan start.x start.y p.1 p.2 ∧
    (∀ q : Int × Int,
      max 0 (start.x - search_radius) ≤ q.1 →
      q.1 ≤ min (gm.world.map.width - 1) (start.x + search_radius) →
      max 0 (start.y - search_radius) ≤ q.2 →
      q.2 ≤ min (gm.world.map.height - 1) (start.y + search_radius) →
      q ∉ visited → q ∉ blocked → q ≠ (start.x, start.y) →
      3 * gm.world.map.nutrientGrid q.2 q.1 -
        manhattan start.x start.y q.1 q.2 ≤ s) := by
  unfold pickWindowScan at h
  rcases scanFold_char visited blocked start.x start.y
    gm.world.map.nutrientGrid _ none p s h with hcontr | ⟨hmem, hok, hs⟩
  · exact absurd hcontr (by simp)
  · obtain ⟨h1, h2, h3⟩ := hok
    have hwin := (mem_windowCoords _ _ _ _ p).1 hmem
    refine ⟨hwin, h1, h2, ?_, ?_, ?_⟩
    · intro hcontra
      rw [hcontra] at h3
      simp at h3
    · rw [hs]
      unfold scanScore manhattan
      rw [abs_sub_comm start.x p.1, abs_sub_comm start.y p.2]
      ring
    · intro q hq1 hq2 hq3 hq4 hqv hqb hqs
      have hqok : scanOk visited blocked start.x start.y q := by
        refine ⟨hqv, hqb, ?_⟩
        intro hcontra
        apply hqs
        have hnn1 := abs_nonneg (q.1 - start.x)
        have hnn2 := abs_nonneg (q.2 - start.y)
        have e1 : q.1 - start.x = 0 := abs_eq_zero.1 (by omega)
        have e2 : q.2 - start.y = 0 := abs_eq_zero.1 (by omega)
        obtain ⟨q1, q2⟩ := q
        simp only at e1 e2
        simp only [Prod.mk.injEq]
        omega
      obtain ⟨c, hc, hcle⟩ := scanFold_ge visited blocked start.x start.y
        gm.world.map.nutrientGrid _ none q
        ((mem_windowCoords _ _ _ _ q).2 ⟨hq1, hq2, hq3, hq4⟩) hqok
      rw [h] at hc
      have hcps : c = (p, s) := by
        simp only [Option.some.injEq] at hc; exact hc.symm
      rw [hcps] at hcle
      unfold scanScore at hcle
      unfold manhattan
      rw [abs_sub_comm start.x q.1, abs_sub_comm start.y q.2]
      omega

/-- Witness for C5 at concrete inputs. -/
theorem pickWindowScan_spec_witness :
    pickWindowScan [] [(2, 2)] 0 0 gmScan3.world.map.nutrientGrid
      (max 0 (0 - search_radius)) (min (3 - 1) (0 + search_radius))
      (max 0 (0 - search_radius)) (min (3 - 1) (0 + search_radius)) =
      some ((1, 0), -1) ∧
    ((1, 0) : Int × Int) ∉ ([] : List (Int × Int)) ∧
    ((1, 0) : Int × Int) ∉ ([(2, 2)] : List (Int × Int)) ∧
    (∀ q : Int × Int,
      max 0 (0 - search_radius) ≤ q.1 →
      q.1 ≤ min ((3 : Int) - 1) (0 + search_radius) →
      max 0 (0 - search_radius) ≤ q.2 →
      q.2 ≤ min ((3 : Int) - 1) (0 + search_radius) →
      q ∉ ([] : List (Int × Int)) → q ∉ ([(2, 2)] : List (Int × Int)) →
      q ≠ ((0 : Int), (0 : Int)) →
      3 * gmScan3.world.map.nutrientGrid q.2 q.1 -
        manhattan 0 0 q.1 q.2 ≤ -1) := by
  have h : pickWindowScan [] [(2, 2)] (0 : Int) (0 : Int)
      gmScan3.world.map.nutrientGrid
      (max 0 (0 - search_radius)) (min ((3 : Int) - 1) (0 + search_radius))
      (max 0 (0 - search_radius)) (min ((3 : Int) - 1) (0 + search_radius))
      = some ((1, 0), -1) := by rfl
  have hspec := pickWindowScan_spec gmScan3 [] [(2, 2)] ⟨0, 0⟩ (1, 0) (-1) h
  exact ⟨h, hspec.2.1, hspec.2.2.1, hspec.2.2.2.2.2⟩

/-- Specification of `pyMinBy`: the result is one of the inputs and its key
is minimal. -/
theorem pyMinBy_spec {A : Type} (key : A → Int) :
    ∀ (l : List A) (b : A),
      pyMinBy key b l ∈ b :: l ∧ key (pyMinBy key b l) ≤ key b ∧
        ∀ x ∈ l, key (pyMinBy key b l) ≤ key x := by
  intro l
  induction l with
  | nil =>
    intro b
    exact ⟨List.mem_cons_self b [], le_refl _, by simp⟩
  | cons a rest ih =>
    intro b
    unfold pyMinBy at ih ⊢
    rw [List.foldl_cons]
    by_cases h : key a < key b
    · rw [if_pos h]
      obtain ⟨hmem, hle, hall⟩ := ih a
      refine ⟨?_, le_trans hle (le_of_lt h), ?_⟩
      · rcases List.mem_cons.1 hmem with heq | hm
        · rw [heq]; exact List.mem_cons_of_mem b (List.mem_cons_self _ _)
        · exact List.mem_cons_of_mem b (List.mem_cons_of_mem a hm)
      · intro x hx
        rcases List.mem_cons.1 hx with rfl | hm
        · exact hle
        · exact hall x hm
    · rw [if_neg h]
      obtain ⟨hmem, hle, hall⟩ := ih b
      refine ⟨?_, hle, ?_⟩
      · rcases List.mem_cons.1 hmem with heq | hm
        · rw [heq]; exact List.mem_cons_self _ _
        · exact List.mem_cons_of_mem _ (List.mem_cons_of_mem a hm)
      · intro x hx
        rcases List.mem_cons.1 hx with rfl | hm
        · exact le_trans hle (by omega)
        · exact hall x hm

/-- Specification of `pyMaxBy`: the result is one of the inputs and its key
is maximal. -/
theorem pyMaxBy_spec {A : Type} (key : A → Int) :
    ∀ (l : List A) (b : A),
      pyMaxBy key b l ∈ b :: l ∧ key b ≤ key (pyMaxBy key b l) ∧
        ∀ x ∈ l, key x ≤ key (pyMaxBy key b l) := by
  intro l
  induction l with
  | nil =>
    intro b
    exact ⟨List.mem_cons_self b [], le_refl _, by simp⟩
  | cons a rest ih =>
    intro b
    unfold pyMaxBy at ih ⊢
    rw [List.foldl_cons]
    by_cases h : key a > key b
    · rw [if_pos h]
      obtain ⟨hmem, hle, hall⟩ := ih a
      refine ⟨?_, le_trans (le_of_lt h) hle, ?_⟩
      · rcases List.mem_cons.1 hmem with heq | hm
        · rw [heq]; exact List.mem_cons_of_mem b (List.mem_cons_self _ _)
        · exact List.mem_cons_of_mem b (List.mem_cons_of_mem a hm)
      · intro x hx
        rcases List.mem_cons.1 hx with rfl | hm
        · exact hle
        · exact hall x hm
    · rw [if_neg h]
      obtain ⟨hmem, hle, hall⟩ := ih b
      refine ⟨?_, hle, ?_⟩
      · rcases List.mem_cons.1 hmem with heq | hm
        · rw [heq]; exact List.mem_cons_self _ _
        · exact List.mem_cons_of_mem _ (List.mem_cons_of_mem a hm)
      · intro x hx
        rcases List.mem_cons.1 hx with rfl | hm
        · exact le_trans (by omega) hle
        · exact hall x hm

/-- `pyMaxBy` breaks ties by list order, exactly as Python `max`: the
result is the FIRST element of the input list whose key attains the
maximum (no earlier element's key reaches it). -/
theorem pyMaxBy_first {A : Type} (key : A → Int) :
    ∀ (l : List A) (b : A),
      (b :: l).find? (fun x => key (pyMaxBy key b l) ≤ key x) =
        some (pyMaxBy key b l) := by
  intro l
  induction l with
  | nil =>
    intro b
    exact List.find?_cons_of_pos [] (by simp [pyMaxBy])
  | cons a rest ih =>
    intro b
    by_cases h : key a > key b
    · have hb' : pyMaxBy key b (a :: rest) = pyMaxBy key a rest := by
        unfold pyMaxBy
        rw [List.foldl_cons, if_pos h]
      rw [hb']
      have hlt : key b < key (pyMaxBy key a rest) :=
        lt_of_lt_of_le h (pyMaxBy_spec key rest a).2.1
      rw [List.find?_cons_of_neg (a :: rest) (by simp; omega)]
      exact ih a
    · have hb' : pyMaxBy key b (a :: rest) = pyMaxBy key b rest := by
        unfold pyMaxBy
        rw [List.foldl_cons, if_neg h]
      rw [hb']
      have hIH := ih b
      by_cases hpb : key (pyMaxBy key b rest) ≤ key b
      · have hrb : pyMaxBy key b rest = b := by
          have hfb : (b :: rest).find?
              (fun x => key (pyMaxBy key b rest) ≤ key x) = some b :=
            List.find?_cons_of_pos rest (by simp [hpb])
          rw [hIH] at hfb
          exact Option.some.inj hfb
        rw [List.find?_cons_of_pos (a :: rest) (by simp [hpb])]
        rw [hrb]
      · have hltb : key b < key (pyMaxBy key b rest) := by omega
        have hab : key a ≤ key b := by omega
        have hrest : rest.find?
            (fun x => key (pyMaxBy key b rest) ≤ key x) =
            some (pyMaxBy key b rest) := by
          rwa [List.find?_cons_of_neg rest (by simp; omega)] at hIH
        rw [List.find?_cons_of_neg (a :: rest) (by simp; omega)]
        rw [List.find?_cons_of_neg rest (by simp; omega)]
        exact hrest

/-- `pyGtPair` and `lexLePair` are the strict and non-strict sides of the
Python tuple order. -/
theorem pyGtPair_iff (a b : Int × Int) :
    pyGtPair a b = true ↔ b.1 < a.1 ∨ (a.1 = b.1 ∧ b.2 < a.2) := by
  unfold pyGtPair
  exact decide_eq_true_iff

/-- Specification of `pyMaxByPair`: the result is one of the inputs and its
tuple key is maximal for the Python tuple order. -/
theorem pyMaxByPair_spec {A : Type} (key : A → Int × Int) :
    ∀ (l : List A) (b : A),
      pyMaxByPair key b l ∈ b :: l ∧
        lexLePair (key b) (key (pyMaxByPair key b l)) ∧
        ∀ x ∈ l, lexLePair (key x) (key (pyMaxByPair key b l)) := by
  intro l
  induction l with
  | nil =>
    intro b
    exact ⟨List.mem_cons_self b [], Or.inr ⟨rfl, le_refl _⟩, by simp⟩
  | cons a rest ih =>
    intro b
    unfold pyMaxByPair at ih ⊢
    rw [List.foldl_cons]
    by_cases h : pyGtPair (key a) (key b) = true
    · rw [if_pos h]
      rw [pyGtPair_iff] at h
      obtain ⟨hmem, hle, hall⟩ := ih a
      unfold lexLePair at hle ⊢
      refine ⟨?_, by omega, ?_⟩
      · rcases List.mem_cons.1 hmem with heq | hm
        · rw [heq]; exact List.mem_cons_of_mem b (List.mem_cons_self _ _)
        · exact List.mem_cons_of_mem b (List.mem_cons_of_mem a hm)
      · intro x hx
        rcases List.mem_cons.1 hx with rfl | hm
        · exact hle
        · exact hall x hm
    · rw [if_neg h]
      rw [pyGtPair_iff] at h
      push_neg at h
      obtain ⟨hmem, hle, hall⟩ := ih b
      unfold lexLePair at hle ⊢
      refine ⟨?_, hle, ?_⟩
      · rcases List.mem_cons.1 hmem with heq | hm
        · rw [heq]; exact List.mem_cons_self _ _
        · exact List.mem_cons_of_mem _ (List.mem_cons_of_mem a hm)
      · intro x hx
        rcases List.mem_cons.1 hx with rfl | hm
        · omega
        · exact hall x hm

/-- Membership in the surrounded-neighbors list: each hit is an in-bounds
neutral tile one step from the spore in the direction paired with it. -/
theorem mem_isSurrounded (gm : TeamGameState) (sp : Spore)
    (neutralPos : List (Int × Int)) (tile dir : Position)
    (h : (tile, dir) ∈ isSurroundedByNeutrals gm sp neutralPos) :
    (tile.x, tile.y) ∈ neutralPos ∧ inBounds gm tile.x tile.y = true ∧
    tile.x = sp.position.x + dir.x ∧ tile.y = sp.position.y + dir.y := by
  unfold isSurroundedByNeutrals at h
  rw [List.mem_filterMap] at h
  obtain ⟨nb, hnb, hcond⟩ := h
  split at hcond
  · rename_i hc
    simp only [Option.some.injEq, Prod.mk.injEq] at hcond
    obtain ⟨htile, hdir⟩ := hcond
    simp only [adjacentPositions, List.mem_cons, List.not_mem_nil,
      or_false] at hnb
    rcases hnb with rfl | rfl | rfl | rfl <;>
      (rw [← htile, ← hdir] at *
       refine ⟨hc.2, by exact_mod_cast hc.1, ?_, ?_⟩ <;>
         (try dsimp only) <;> omega)
  · exact absurd hcond (by simp)

/-- Characterization of the sacrifice-candidate list. -/
theorem mem_sacrificeCandidates (gm : TeamGameState) (mySpores : List Spore)
    (neutralPos : List (Int × Int))
    (neutralBiomass : List ((Int × Int) × Int))
    (c : Spore × Position × Position) :
    c ∈ sacrificeCandidates gm mySpores neutralPos neutralBiomass ↔
      c.1 ∈ mySpores ∧ ∃ a rest,
        isSurroundedByNeutrals gm c.1 neutralPos = a :: rest ∧
        surrounded_threshold ≤ (a :: rest).length ∧
        c.2 = pyMinBy (fun td => nbCost neutralBiomass td.1) a rest := by
  obtain ⟨c1, c2⟩ := c
  unfold sacrificeCandidates
  rw [List.mem_filterMap]
  constructor
  · rintro ⟨sp, hsp, hf⟩
    cases hh : isSurroundedByNeutrals gm sp neutralPos with
    | nil => rw [hh] at hf; exact absurd hf (by simp)
    | cons a rest =>
      rw [hh] at hf
      dsimp only at hf
      by_cases hlen : (a :: rest).length < surrounded_threshold
      · rw [if_pos hlen] at hf
        exact absurd hf (by simp)
      · rw [if_neg hlen] at hf
        simp only [Option.some.injEq, Prod.mk.injEq] at hf
        obtain ⟨h1, h2⟩ := hf
        subst h1
        exact ⟨hsp, a, rest, hh, by omega, h2.symm⟩
  · rintro ⟨hmem, a, rest, hh, hlen, hbest⟩
    refine ⟨c1, hmem, ?_⟩
    rw [hh]
    dsimp only
    rw [if_neg (by omega)]
    dsimp only at hbest
    rw [hbest]

/-- C6: whenever the Sacrifice Arbiter returns a move, the selected unit is
surrounded (at least `surrounded_threshold` in-bounds neutral neighbors),
has minimal biomass among all surrounded units, and the move's direction
points at an adjacent neutral tile of minimal recorded biomass; when no
unit is surrounded, it returns no move. -/
theorem chooseSacrificeTarget_spec (gm : TeamGameState)
    (mySpores : List Spore) (neutralPos : List (Int × Int))
    (neutralBiomass : List ((Int × Int) × Int)) :
    (∀ sid dir,
      chooseSacrificeTarget gm mySpores neutralPos neutralBiomass =
        some (sid, dir) →
      ∃ sp ∈ mySpores, sp.id = sid ∧
        surrounded_threshold ≤
          (isSurroundedByNeutrals gm sp neutralPos).length ∧
        (∀ sp' ∈ mySpores,
          surrounded_threshold ≤
            (isSurroundedByNeutrals gm sp' neutralPos).length →
          sp.biomass ≤ sp'.biomass) ∧
        ∃ tile, (tile, dir) ∈ isSurroundedByNeutrals gm sp neutralPos ∧
          (tile.x, tile.y) ∈ neutralPos ∧
          tile.x = sp.position.x + dir.x ∧
          tile.y = sp.position.y + dir.y ∧
          ∀ td ∈ isSurroundedByNeutrals gm sp neutralPos,
            nbCost neutralBiomass tile ≤ nbCost neutralBiomass td.1) ∧
    ((∀ sp ∈ mySpores,
        (isSurroundedByNeutrals gm sp neutralPos).length <
          surrounded_threshold) →
      chooseSacrificeTarget gm mySpores neutralPos neutralBiomass =
        none) := by
  constructor
  · intro sid dir h
    unfold chooseSacrificeTarget at h
    cases hc : sacrificeCandidates gm mySpores neutralPos neutralBiomass
      with
    | nil => rw [hc] at h; exact absurd h (by simp)
    | cons c cs =>
      rw [hc] at h
      dsimp only at h
      simp only [Option.some.injEq, Prod.mk.injEq] at h
      obtain ⟨hsid, hdir⟩ := h
      obtain ⟨hwmem, hwlec, hwall⟩ :=
        pyMinBy_spec (fun t : Spore × Position × Position => t.1.biomass)
          cs c
      set w := pyMinBy (fun t : Spore × Position × Position => t.1.biomass)
        c cs with hwdef
      have hwcand : w ∈ sacrificeCandidates gm mySpores neutralPos
          neutralBiomass := by rw [hc]; exact hwmem
      obtain ⟨hsp, a, rest, hhits, hlen, hbest⟩ :=
        (mem_sacrificeCandidates gm mySpores neutralPos neutralBiomass
          w).1 hwcand
      obtain ⟨hbmem, hblea, hball⟩ :=
        pyMinBy_spec (fun td : Position × Position =>
          nbCost neutralBiomass td.1) rest a
      refine ⟨w.1, hsp, hsid, ?_, ?_, ?_⟩
      · rw [hhits]; exact hlen
      · intro sp' hsp' hlen'
        cases hh' : isSurroundedByNeutrals gm sp' neutralPos with
        | nil => rw [hh'] at hlen'; simp [surrounded_threshold] at hlen'
        | cons a' rest' =>
          have hcand' : (sp',
              pyMinBy (fun td => nbCost neutralBiomass td.1) a' rest') ∈
              sacrificeCandidates gm mySpores neutralPos neutralBiomass :=
            (mem_sacrificeCandidates gm mySpores neutralPos neutralBiomass
              _).2 ⟨hsp', a', rest', hh', by rw [← hh']; exact hlen', rfl⟩
          rw [hc] at hcand'
          rcases List.mem_cons.1 hcand' with heq | hmem'
          · have : sp' = c.1 := by rw [← heq]
            rw [this]
            exact hwlec
          · exact hwall _ hmem'
      · refine ⟨w.2.1, ?_, ?_⟩
        · rw [hhits, ← hdir]
          have : (w.2.1, w.2.2) = w.2 := rfl
          rw [this, hbest]
          exact hbmem
        · have hms := mem_isSurrounded gm w.1 neutralPos w.2.1 w.2.2
            (by
              rw [hhits]
              have : (w.2.1, w.2.2) = w.2 := rfl
              rw [this, hbest]
              exact hbmem)
          refine ⟨hms.1, hms.2.2.1.trans (by rw [hdir]),
            hms.2.2.2.trans (by rw [hdir]), ?_⟩
          intro td htd
          rw [hhits] at htd
          have hwtile : nbCost neutralBiomass w.2.1 =
              nbCost neutralBiomass
                (pyMinBy (fun td => nbCost neutralBiomass td.1) a
                  rest).1 := by rw [← hbest]
          rcases List.mem_cons.1 htd with rfl | hm
          · rw [hwtile]; exact hblea
          · rw [hwtile]; exact hball _ hm
  · intro hall
    unfold chooseSacrificeTarget
    cases hc : sacrificeCandidates gm mySpores neutralPos neutralBiomass
      with
    | nil => rfl
    | cons c cs =>
      exfalso
      have hcmem : c ∈ sacrificeCandidates gm mySpores neutralPos
          neutralBiomass := by rw [hc]; exact List.mem_cons_self _ _
      obtain ⟨hsp, a, rest, hhits, hlen, _⟩ :=
        (mem_sacrificeCandidates gm mySpores neutralPos neutralBiomass
          c).1 hcmem
      have := hall c.1 hsp
      rw [hhits] at this
      omega

/-- Witness for C6 at a concrete surrounded configuration. -/
theorem chooseSacrificeTarget_spec_witness :
    chooseSacrificeTarget gmSac [⟨"s", "us", ⟨1, 1⟩, 2⟩]
      (neutralSporePositions gmSac) (neutralSporeBiomassByPos gmSac) =
      some ("s", ⟨-1, 0⟩) ∧
    ∃ sp ∈ [(⟨"s", "us", ⟨1, 1⟩, 2⟩ : Spore)], sp.id = "s" ∧
      surrounded_threshold ≤
        (isSurroundedByNeutrals gmSac sp
          (neutralSporePositions gmSac)).length ∧
      (∀ sp' ∈ [(⟨"s", "us", ⟨1, 1⟩, 2⟩ : Spore)],
        surrounded_threshold ≤
          (isSurroundedByNeutrals gmSac sp'
            (neutralSporePositions gmSac)).length →
        sp.biomass ≤ sp'.biomass) ∧
      ∃ tile, (tile, (⟨-1, 0⟩ : Position)) ∈
          isSurroundedByNeutrals gmSac sp (neutralSporePositions gmSac) ∧
        (tile.x, tile.y) ∈ neutralSporePositions gmSac ∧
        tile.x = sp.position.x + (-1) ∧ tile.y = sp.position.y + 0 ∧
        ∀ td ∈ isSurroundedByNeutrals gmSac sp
            (neutralSporePositions gmSac),
          nbCost (neutralSporeBiomassByPos gmSac) tile ≤
            nbCost (neutralSporeBiomassByPos gmSac) td.1 := by
  constructor
  · rfl
  · exact (chooseSacrificeTarget_spec gmSac [⟨"s", "us", ⟨1, 1⟩, 2⟩]
      (neutralSporePositions gmSac) (neutralSporeBiomassByPos gmSac)).1
      "s" ⟨-1, 0⟩ rfl

/-- The running minimum of a fold with strict improvement: lower bound on
the start, lower bound on every element, and attainment. -/
theorem minVal_fold {A : Type} (d : A → Int) :
    ∀ (l : List A) (b : Int),
      (l.foldl (fun acc x => if d x < acc then d x else acc) b ≤ b) ∧
      (∀ x ∈ l,
        l.foldl (fun acc x => if d x < acc then d x else acc) b ≤ d x) ∧
      (l.foldl (fun acc x => if d x < acc then d x else acc) b = b ∨
        ∃ x ∈ l,
          l.foldl (fun acc x => if d x < acc then d x else acc) b = d x)
    := by
  intro l
  induction l with
  | nil => intro b; exact ⟨le_refl _, by simp, Or.inl rfl⟩
  | cons a rest ih =>
    intro b
    rw [List.foldl_cons]
    by_cases h : d a < b
    · rw [if_pos h]
      obtain ⟨hle, hall, hatt⟩ := ih (d a)
      refine ⟨le_trans hle (le_of_lt h), ?_, ?_⟩
      · intro x hx
        rcases List.mem_cons.1 hx with rfl | hm
        · exact hle
        · exact hall x hm
      · rcases hatt with heq | ⟨x, hx, heq⟩
        · exact Or.inr ⟨a, List.mem_cons_self _ _, heq⟩
        · exact Or.inr ⟨x, List.mem_cons_of_mem a hx, heq⟩
    · rw [if_neg h]
      obtain ⟨hle, hall, hatt⟩ := ih b
      refine ⟨hle, ?_, ?_⟩
      · intro x hx
        rcases List.mem_cons.1 hx with rfl | hm
        · omega
        · exact hall x hm
      · rcases hatt with heq | ⟨x, hx, heq⟩
        · exact Or.inl heq
        · exact Or.inr ⟨x, List.mem_cons_of_mem a hx, heq⟩

/-- `minDistToEnemy` really is the minimum Manhattan distance to an enemy
tile (for a non-empty enemy set). -/
theorem minDistToEnemy_spec (enemyPos : List (Int × Int)) (sp : Spore)
    (h : enemyPos ≠ []) :
    (∀ q ∈ enemyPos, minDistToEnemy enemyPos sp ≤
      manhattan sp.position.x sp.position.y q.1 q.2) ∧
    ∃ q ∈ enemyPos, minDistToEnemy enemyPos sp =
      manhattan sp.position.x sp.position.y q.1 q.2 := by
  cases hl : enemyPos with
  | nil => exact absurd hl h
  | cons e es =>
    unfold minDistToEnemy
    obtain ⟨hle, hall, hatt⟩ :=
      minVal_fold
        (fun q : Int × Int => manhattan sp.position.x sp.position.y q.1 q.2)
        es (manhattan sp.position.x sp.position.y e.1 e.2)
    constructor
    · intro q hq
      rcases List.mem_cons.1 hq with rfl | hm
      · exact hle
      · exact hall q hm
    · rcases hatt with heq | ⟨x, hx, heq⟩
      · exact ⟨e, List.mem_cons_self _ _, heq⟩
      · exact ⟨x, List.mem_cons_of_mem e hx, heq⟩

/-- C10 (amended): `pick_safest_unit` returns none with no units; with no
hostile tiles it returns the unit with lexicographically greatest `(x, y)`;
otherwise it returns the unit maximizing the minimum Manhattan distance to
the hostile tiles, ties broken by earliest position in the unit list (not
by lexicographically greatest coordinate): the returned unit is the first
of the team's list whose minimum distance attains the maximum (the `find?`
conjunct). -/
theorem pickSafestSpore_spec (gm : TeamGameState)
    (enemyPos : List (Int × Int)) :
    ((myTeam gm).spores = [] →
      pickSafestSporeForNewSpawner gm enemyPos = none) ∧
    (∀ s0 rest, (myTeam gm).spores = s0 :: rest → enemyPos = [] →
      ∃ sp, pickSafestSporeForNewSpawner gm enemyPos = some sp ∧
        sp ∈ (myTeam gm).spores ∧
        ∀ sp' ∈ (myTeam gm).spores,
          lexLePair (sp'.position.x, sp'.position.y)
            (sp.position.x, sp.position.y)) ∧
    (∀ s0 rest, (myTeam gm).spores = s0 :: rest → enemyPos ≠ [] →
      ∃ sp, pickSafestSporeForNewSpawner gm enemyPos = some sp ∧
        sp ∈ (myTeam gm).spores ∧
        (∀ sp' ∈ (myTeam gm).spores,
          minDistToEnemy enemyPos sp' ≤ minDistToEnemy enemyPos sp) ∧
        ((myTeam gm).spores.find?
          (fun s => minDistToEnemy enemyPos sp ≤ minDistToEnemy enemyPos s)
          = some sp) ∧
        (∀ q ∈ enemyPos, minDistToEnemy enemyPos sp ≤
          manhattan sp.position.x sp.position.y q.1 q.2) ∧
        (∃ q ∈ enemyPos, minDistToEnemy enemyPos sp =
          manhattan sp.position.x sp.position.y q.1 q.2)) := by
  refine ⟨?_, ?_, ?_⟩
  · intro h
    unfold pickSafestSporeForNewSpawner
    rw [h]
  · intro s0 rest hs he
    unfold pickSafestSporeForNewSpawner
    rw [hs]
    dsimp only
    rw [if_pos he]
    obtain ⟨hmem, hleb, hall⟩ :=
      pyMaxByPair_spec
        (fun s : Spore => (s.position.x, s.position.y)) rest s0
    refine ⟨_, rfl, hmem, ?_⟩
    intro sp' hsp'
    rcases List.mem_cons.1 hsp' with rfl | hm
    · exact hleb
    · exact hall sp' hm
  · intro s0 rest hs he
    unfold pickSafestSporeForNewSpawner
    rw [hs]
    dsimp only
    rw [if_neg he]
    obtain ⟨hmem, hleb, hall⟩ :=
      pyMaxBy_spec (minDistToEnemy enemyPos) rest s0
    obtain ⟨hmin1, hmin2⟩ :=
      minDistToEnemy_spec enemyPos
        (pyMaxBy (minDistToEnemy enemyPos) s0 rest) he
    refine ⟨_, rfl, hmem, ?_,
      pyMaxBy_first (minDistToEnemy enemyPos) rest s0, hmin1, hmin2⟩
    intro sp' hsp'
    rcases List.mem_cons.1 hsp' with rfl | hm
    · exact hleb
    · exact hall sp' hm

/-- C10 counterexample: two units tied in minimum distance to the enemy;
the one with lexicographically smaller coordinate is returned (list order
breaks the tie, not the lexicographically greatest coordinate). -/
theorem pickSafestSpore_counterexample :
    pickSafestSporeForNewSpawner gmSafest [(0, 0)] =
      some ⟨"a", "us", ⟨0, 4⟩, 1⟩ ∧
    minDistToEnemy [(0, 0)] ⟨"a", "us", ⟨0, 4⟩, 1⟩ =
      minDistToEnemy [(0, 0)] ⟨"b", "us", ⟨4, 0⟩, 1⟩ ∧
    (⟨"b", "us", ⟨4, 0⟩, 1⟩ : Spore) ∈ (myTeam gmSafest).spores ∧
    pyGtPair (4, 0) (0, 4) = true := by
  exact ⟨by rfl, by decide, by decide, by decide⟩

/-- Witness for the amended C10 at concrete inputs. -/
theorem pickSafestSpore_spec_witness :
    ((myTeam gmSafest).spores =
      [⟨"a", "us", ⟨0, 4⟩, 1⟩, ⟨"b", "us", ⟨4, 0⟩, 1⟩]) ∧
    (([((0 : Int), (0 : Int))] : List (Int × Int)) ≠ []) ∧
    ∃ sp, pickSafestSporeForNewSpawner gmSafest [(0, 0)] = some sp ∧
      sp ∈ (myTeam gmSafest).spores ∧
      (∀ sp' ∈ (myTeam gmSafest).spores,
        minDistToEnemy [(0, 0)] sp' ≤ minDistToEnemy [(0, 0)] sp) ∧
      ((myTeam gmSafest).spores.find?
        (fun s => minDistToEnemy [(0, 0)] sp ≤ minDistToEnemy [(0, 0)] s)
        = some sp) ∧
      (∀ q ∈ ([((0 : Int), (0 : Int))] : List (Int × Int)),
        minDistToEnemy [(0, 0)] sp ≤
          manhattan sp.position.x sp.position.y q.1 q.2) ∧
      (∃ q ∈ ([((0 : Int), (0 : Int))] : List (Int × Int)),
        minDistToEnemy [(0, 0)] sp =
          manhattan sp.position.x sp.position.y q.1 q.2) :=
  ⟨by decide, by decide,
    (pickSafestSpore_spec gmSafest [(0, 0)]).2.2
      ⟨"a", "us", ⟨0, 4⟩, 1⟩ [⟨"b", "us", ⟨4, 0⟩, 1⟩]
      (by decide) (by decide)⟩

/-- Characterization of a `some` accumulator of the nearest-in-radius fold:
it is the incoming accumulator or an element within the radius carrying its
exact distance. -/
theorem nearestFold_char (sx sy radius : Int) :
    ∀ (l : List (Int × Int)) (acc : Option ((Int × Int) × Int))
      (t : Int × Int) (dd : Int),
      l.foldl (nearestStep sx sy radius) acc = some (t, dd) →
      acc = some (t, dd) ∨
        (t ∈ l ∧ dd = |t.1 - sx| + |t.2 - sy| ∧ dd ≤ radius) := by
  intro l
  induction l with
  | nil => intro acc t dd h; exact Or.inl h
  | cons q rest ih =>
    intro acc t dd h
    rw [List.foldl_cons] at h
    rcases ih _ t dd h with hstep | ⟨hmem, hd, hr⟩
    · unfold nearestStep at hstep
      dsimp only at hstep
      split at hstep
      · rename_i hcond
        simp only [Option.some.injEq, Prod.mk.injEq] at hstep
        obtain ⟨ht, hdd⟩ := hstep
        exact Or.inr ⟨ht ▸ List.mem_cons_self q rest, by rw [← ht, ← hdd],
          by rw [← hdd]; exact hcond.1⟩
      · exact Or.inl hstep
    · exact Or.inr ⟨List.mem_cons_of_mem q hmem, hd, hr⟩

/-- The nearest-in-radius fold never drops a `some` accumulator and its
best distance never increases. -/
theorem nearestFold_mono (sx sy radius : Int) :
    ∀ (l : List (Int × Int)) (b : (Int × Int) × Int),
      ∃ c, l.foldl (nearestStep sx sy radius) (some b) = some c ∧
        c.2 ≤ b.2 := by
  intro l
  induction l with
  | nil => intro b; exact ⟨b, rfl, le_refl _⟩
  | cons q rest ih =>
    intro b
    rw [List.foldl_cons]
    unfold nearestStep
    dsimp only
    split
    · rename_i hcond
      obtain ⟨c, hc, hc2⟩ := ih (q, |q.1 - sx| + |q.2 - sy|)
      refine ⟨c, hc, ?_⟩
      exact le_trans hc2 (le_of_lt hcond.2)
    · exact ih b

/-- Any element within the radius forces the nearest-in-radius fold to
return an accumulator at distance at most that element's distance
(for a radius below the `10**9` sentinel). -/
theorem nearestFold_ge (sx sy radius : Int) (hrad : radius < 10 ^ 9) :
    ∀ (l : List (Int × Int)) (acc : Option ((Int × Int) × Int))
      (q : Int × Int),
      q ∈ l → |q.1 - sx| + |q.2 - sy| ≤ radius →
      ∃ c, l.foldl (nearestStep sx sy radius) acc = some c ∧
        c.2 ≤ |q.1 - sx| + |q.2 - sy| ∧ c.2 ≤ radius := by
  intro l
  induction l with
  | nil => intro acc q hq; exact absurd hq (List.not_mem_nil q)
  | cons a rest ih =>
    intro acc q hq hqr
    rw [List.foldl_cons]
    rcases List.mem_cons.1 hq with rfl | hq'
    · have hstep : ∃ c0,
          nearestStep sx sy radius acc q = some c0 ∧
          c0.2 ≤ |q.1 - sx| + |q.2 - sy| ∧ c0.2 ≤ radius := by
        unfold nearestStep
        dsimp only
        split
        · rename_i hcond
          exact ⟨(q, |q.1 - sx| + |q.2 - sy|), rfl, le_refl _, hcond.1⟩
        · rename_i hcond
          cases acc with
          | none =>
            exfalso
            simp only [Option.map_none', Option.getD_none] at hcond
            omega
          | some b =>
            simp only [Option.map_some', Option.getD_some] at hcond
            exact ⟨b, rfl, by omega, by omega⟩
      obtain ⟨c0, hc0, hc0a, hc0b⟩ := hstep
      rw [hc0]
      obtain ⟨c, hc, hcle⟩ := nearestFold_mono sx sy radius rest c0
      exact ⟨c, hc, le_trans hcle hc0a, le_trans hcle hc0b⟩
    · exact ih _ q hq' hqr

/-- Specification of the shared nearest-in-radius scan: a returned position
is an element of the set within the radius at minimal Manhattan distance,
and some element within the radius guarantees a result. -/
theorem nearestInRadius_spec (start : Position) (l : List (Int × Int))
    (radius : Int) (hrad : radius < 10 ^ 9) :
    (∀ t, nearestInRadius start l radius = some t →
      (t.x, t.y) ∈ l ∧
      manhattan start.x start.y t.x t.y ≤ radius ∧
      ∀ q ∈ l, manhattan start.x start.y q.1 q.2 ≤ radius →
        manhattan start.x start.y t.x t.y ≤
          manhattan start.x start.y q.1 q.2) ∧
    ((∃ q ∈ l, manhattan start.x start.y q.1 q.2 ≤ radius) →
      (nearestInRadius start l radius).isSome) := by
  constructor
  · intro t h
    unfold nearestInRadius at h
    rw [Option.map_eq_some'] at h
    obtain ⟨⟨tp, dd⟩, hfold, ht⟩ := h
    rcases nearestFold_char start.x start.y radius l none tp dd hfold with
      hcontr | ⟨hmem, hd, hr⟩
    · exact absurd hcontr (by simp)
    · have htx : t.x = tp.1 := by rw [← ht]
      have hty : t.y = tp.2 := by rw [← ht]
      have hmt : manhattan start.x start.y t.x t.y = dd := by
        rw [htx, hty, hd]
        unfold manhattan
        rw [abs_sub_comm start.x tp.1, abs_sub_comm start.y tp.2]
      refine ⟨by rw [htx, hty]; exact hmem, by omega, ?_⟩
      intro q hq hqr
      have hqr' : |q.1 - start.x| + |q.2 - start.y| ≤ radius := by
        unfold manhattan at hqr
        rw [abs_sub_comm start.x q.1, abs_sub_comm start.y q.2] at hqr
        exact hqr
      obtain ⟨c, hc, hc1, _⟩ :=
        nearestFold_ge start.x start.y radius hrad l none q hq hqr'
      rw [hfold] at hc
      have hceq : c = (tp, dd) := by
        simp only [Option.some.injEq] at hc; exact hc.symm
      rw [hceq] at hc1
      dsimp only at hc1
      rw [hmt]
      unfold manhattan
      rw [abs_sub_comm start.x q.1, abs_sub_comm start.y q.2]
      omega
  · rintro ⟨q, hq, hqr⟩
    have hqr' : |q.1 - start.x| + |q.2 - start.y| ≤ radius := by
      unfold manhattan at hqr
      rw [abs_sub_comm start.x q.1, abs_sub_comm start.y q.2] at hqr
      exact hqr
    obtain ⟨c, hc, _, _⟩ :=
      nearestFold_ge start.x start.y radius hrad l none q hq hqr'
    unfold nearestInRadius
    rw [hc]
    rfl

/-- C2 (amended): the hostile-structure attack target is checked first,
before the exploration scan and random sampling: whenever a hostile
structure lies within the attack radius (12) of the unit, the nearest such
structure becomes the target, with the goal marked allowed-to-be-blocked,
regardless of any exploration target. -/
theorem selectTarget_spawner_first (gm : TeamGameState)
    (visited : List (Int × Int)) (sp : Spore)
    (blocked neutralPos enemySpawnerPos : List (Int × Int))
    (rng : Nat → Int × Int) (fb : Int × Int) :
    (∀ t, nearestEnemySpawnerInRadius sp.position enemySpawnerPos
        attack_spawner_radius = some t →
      selectTargetForSpore gm visited sp blocked neutralPos
        enemySpawnerPos rng fb = (t, true) ∧
      (t.x, t.y) ∈ enemySpawnerPos ∧
      manhattan sp.position.x sp.position.y t.x t.y ≤
        attack_spawner_radius ∧
      ∀ q ∈ enemySpawnerPos,
        manhattan sp.position.x sp.position.y q.1 q.2 ≤
          attack_spawner_radius →
        manhattan sp.position.x sp.position.y t.x t.y ≤
          manhattan sp.position.x sp.position.y q.1 q.2) ∧
    ((∃ q ∈ enemySpawnerPos,
        manhattan sp.position.x sp.position.y q.1 q.2 ≤
          attack_spawner_radius) →
      (nearestEnemySpawnerInRadius sp.position enemySpawnerPos
        attack_spawner_radius).isSome) := by
  constructor
  · intro t h
    have hspec := (nearestInRadius_spec sp.position enemySpawnerPos
      attack_spawner_radius (by decide)).1 t h
    refine ⟨?_, hspec.1, hspec.2.1, hspec.2.2⟩
    unfold selectTargetForSpore
    rw [h]
  · intro hex
    exact (nearestInRadius_spec sp.position enemySpawnerPos
      attack_spawner_radius (by decide)).2 hex

/-- C2 counterexample: the exploration scan yields a target, yet the
hostile-structure target is chosen, refuting "a hostile-structure attack
target is chosen only after the exploration scan and random sampling have
yielded no target". -/
theorem selectTarget_spawner_first_counterexample :
    pickUnvisitedTarget gmScan3 [] ⟨0, 0⟩ [(2, 2)] rngZero =
      some ⟨1, 0⟩ ∧
    selectTargetForSpore gmScan3 [] ⟨"s", "us", ⟨0, 0⟩, 4⟩ [(2, 2)] []
      [(2, 2)] rngZero (0, 0) = (⟨2, 2⟩, true) ∧
    (⟨2, 2⟩ : Position) ≠ ⟨1, 0⟩ := by
  exact ⟨by rfl, by rfl, by decide⟩

/-- Witness for the amended C2 at concrete inputs. -/
theorem selectTarget_spawner_first_witness :
    nearestEnemySpawnerInRadius (⟨0, 0⟩ : Position) [(2, 2)]
      attack_spawner_radius = some ⟨2, 2⟩ ∧
    selectTargetForSpore gmScan3 [] ⟨"s", "us", ⟨0, 0⟩, 4⟩ [(2, 2)] []
      [(2, 2)] rngZero (0, 0) = (⟨2, 2⟩, true) ∧
    ((2 : Int), (2 : Int)) ∈ ([(2, 2)] : List (Int × Int)) ∧
    manhattan 0 0 2 2 ≤ attack_spawner_radius := by
  have h : nearestEnemySpawnerInRadius (⟨0, 0⟩ : Position) [(2, 2)]
      attack_spawner_radius = some ⟨2, 2⟩ := by rfl
  have hspec := (selectTarget_spawner_first gmScan3 []
    ⟨"s", "us", ⟨0, 0⟩, 4⟩ [(2, 2)] [] [(2, 2)] rngZero (0, 0)).1
    ⟨2, 2⟩ h
  exact ⟨h, hspec.1, hspec.2.1, hspec.2.2.1⟩

/-- The movement phase leaves the bot state unchanged. -/
theorem movementPhase_fst (st : BotState) (gm : TeamGameState)
    (rc rm : String → Nat → Int × Int) (rf : String → Int × Int) :
    (movementPhase st gm rc rm rf).1 = st := rfl

/-- The tail of `get_next_move` leaves the bot state unchanged. -/
theorem getNextMoveTail_fst (st : BotState) (gm : TeamGameState)
    (rc rm : String → Nat → Int × Int) (rf : String → Int × Int) :
    (getNextMoveTail st gm rc rm rf).1 = st := by
  unfold getNextMoveTail
  cases (myTeam gm).spawners with
  | nil =>
    cases (myTeam gm).spores with
    | nil => rfl
    | cons sp0 rest => rfl
  | cons spw rest => rfl

/-- Every branch of `get_next_move` stores exactly the updated visited
set. -/
theorem getNextMove_visited (st : BotState) (gm : TeamGameState)
    (rc rm : String → Nat → Int × Int) (rf : String → Int × Int) :
    (getNextMove st gm rc rm rf).1.visited =
      updateVisited gm st.visited := by
  unfold getNextMove
  dsimp only
  split
  · rfl
  · split
    · cases pickSafestSporeForNewSpawner gm (enemySporePositions gm) with
      | some safest =>
        dsimp only
        split
        · rfl
        · rw [getNextMoveTail_fst]
      | none =>
        dsimp only
        rw [getNextMoveTail_fst]
    · rw [getNextMoveTail_fst]

/-- On a tick where neither the burst, the panic branch, nor the bootstrap
branch fires, `get_next_move` returns the movement-phase actions. -/
theorem getNextMove_actions_normal (st : BotState) (gm : TeamGameState)
    (rc rm : String → Nat → Int × Int) (rf : String → Int × Int)
    (h0 : ¬(gm.tick = 0 ∧ st.didInitialBurst = false))
    (h1 : ¬panicFires st gm)
    (h2 : ¬bootstrapFires gm) :
    (getNextMove st gm rc rm rf).2 =
      (movementPhase { st with visited := updateVisited gm st.visited }
        gm rc rm rf).2 := by
  have htail : ∀ st' : BotState,
      (getNextMoveTail st' gm rc rm rf).2 =
        (movementPhase st' gm rc rm rf).2 := by
    intro st'
    unfold getNextMoveTail
    cases hsw : (myTeam gm).spawners with
    | nil =>
      cases hsp : (myTeam gm).spores with
      | nil => rfl
      | cons sp0 rest =>
        exfalso
        exact h2 ⟨hsw, by rw [hsp]; simp⟩
    | cons spw rest => rfl
  unfold getNextMove
  dsimp only
  rw [if_neg h0]
  split
  · rename_i hcond
    cases hps : pickSafestSporeForNewSpawner gm (enemySporePositions gm)
      with
    | some safest =>
      dsimp only
      split
      · rename_i hlt
        exfalso
        exact h1 ⟨hcond.1, hcond.2, by rw [hps]; rfl, hlt⟩
      · rw [htail]
    | none =>
      dsimp only
      rw [htail]
  · rw [htail]

/-- The single action of the per-spore movement loop is never a produce
action. -/
theorem movementActionFor_not_produce (gm : TeamGameState)
    (visited : List (Int × Int))
    (blocked neutralPos enemySpawnerPos : List (Int × Int))
    (sac : Option (String × Position)) (sp : Spore)
    (rng : Nat → Int × Int) (fb : Int × Int) :
    isProduceAction (movementActionFor gm visited blocked neutralPos
      enemySpawnerPos sac sp rng fb) = false := by
  unfold movementActionFor
  split
  · split
    · rfl
    · rfl
  · dsimp only
    split
    · rfl
    · rfl

/-- The single action of the per-spore movement loop is a movement
action addressed to that spore. -/
theorem movementActionFor_uid (gm : TeamGameState)
    (visited : List (Int × Int))
    (blocked neutralPos enemySpawnerPos : List (Int × Int))
    (sac : Option (String × Position)) (sp : Spore)
    (rng : Nat → Int × Int) (fb : Int × Int) :
    unitActionId (movementActionFor gm visited blocked neutralPos
      enemySpawnerPos sac sp rng fb) = some sp.id ∧
    isMovementAction (movementActionFor gm visited blocked neutralPos
      enemySpawnerPos sac sp rng fb) = true := by
  unfold movementActionFor
  split
  · rename_i hmatch
    cases sac with
    | none => simp at hmatch
    | some pr =>
      obtain ⟨sid, dvec⟩ := pr
      dsimp only
      simp only [beq_iff_eq] at hmatch
      rw [hmatch]
      exact ⟨rfl, rfl⟩
  · dsimp only
    split
    · exact ⟨rfl, rfl⟩
    · exact ⟨rfl, rfl⟩

/-- C7: for every tick and snapshot, no produce-unit action is emitted when
the team's nutrients are strictly below the scaled production cost
`min(4 * 2^(tick // 150), 256)` of that tick. -/
theorem no_produce_when_poor (st : BotState) (gm : TeamGameState)
    (rc rm : String → Nat → Int × Int) (rf : String → Int × Int)
    (h : (myTeam gm).nutrients <
      min (4 * 2 ^ (gm.tick / 150) : Int) 256) :
    ∀ a ∈ (getNextMove st gm rc rm rf).2, isProduceAction a = false := by
  have hcost : currentSpawnBiomass gm.tick =
      min (4 * 2 ^ (gm.tick / 150) : Int) 256 := rfl
  have hphase : ∀ st' : BotState,
      ∀ a ∈ (movementPhase st' gm rc rm rf).2,
        isProduceAction a = false := by
    intro st' a ha
    unfold movementPhase at ha
    dsimp only at ha
    rw [List.mem_append] at ha
    rcases ha with hp | hm
    · revert hp
      cases (myTeam gm).spawners with
      | nil => intro hp; exact absurd hp (List.not_mem_nil a)
      | cons spw rest =>
        intro hp
        dsimp only at hp
        by_cases hcond2 : produce_every_tick = true ∧
            (myTeam gm).spores.length < max_spores ∧
            (myTeam gm).nutrients ≥ currentSpawnBiomass gm.tick
        · exfalso
          have hge := hcond2.2.2
          rw [hcost] at hge
          omega
        · rw [if_neg hcond2] at hp
          exact absurd hp (List.not_mem_nil a)
    · rw [List.mem_map] at hm
      obtain ⟨sp, _, rfl⟩ := hm
      exact movementActionFor_not_produce gm st'.visited _ _ _ _ sp _ _
  have htail : ∀ st' : BotState,
      ∀ a ∈ (getNextMoveTail st' gm rc rm rf).2,
        isProduceAction a = false := by
    intro st' a ha
    unfold getNextMoveTail at ha
    revert ha
    cases (myTeam gm).spawners with
    | nil =>
      cases (myTeam gm).spores with
      | nil => exact hphase st' a
      | cons sp0 rest =>
        intro ha
        simp only [List.mem_singleton] at ha
        rw [ha]
        rfl
    | cons spw rest => exact hphase st' a
  intro a ha
  unfold getNextMove at ha
  dsimp only at ha
  split at ha
  · rw [List.mem_map] at ha
    obtain ⟨sp, _, rfl⟩ := ha
    rfl
  · split at ha
    · revert ha
      cases pickSafestSporeForNewSpawner gm (enemySporePositions gm) with
      | some safest =>
        dsimp only
        split
        · intro ha
          simp only [List.mem_singleton] at ha
          rw [ha]
          rfl
        · exact htail _ a
      | none => exact htail _ a
    · exact htail _ a ha

/-- Witness for C7 at a concrete poor snapshot. -/
theorem no_produce_when_poor_witness :
    ((myTeam gmPoor).nutrients <
      min (4 * 2 ^ (gmPoor.tick / 150) : Int) 256) ∧
    ∀ a ∈ (getNextMove initialBotState gmPoor rngZero2 rngZero2
      rngZero1).2, isProduceAction a = false :=
  ⟨by decide,
    no_produce_when_poor initialBotState gmPoor rngZero2 rngZero2 rngZero1
      (by decide)⟩

/-- Filtering the per-spore movement actions by addressee counts exactly
the spores bearing that id. -/
theorem moves_filter_length (gm : TeamGameState)
    (visited : List (Int × Int))
    (blocked neutralPos enemySpawnerPos : List (Int × Int))
    (sac : Option (String × Position))
    (rm : String → Nat → Int × Int) (rf : String → Int × Int) :
    ∀ (l : List Spore) (sid : String),
      ((l.map (fun sp => movementActionFor gm visited blocked neutralPos
          enemySpawnerPos sac sp (rm sp.id) (rf sp.id))).filter
        (fun a => unitActionId a = some sid)).length =
      (l.filter (fun sp => sp.id = sid)).length := by
  intro l sid
  induction l with
  | nil => rfl
  | cons sp rest ih =>
    have huid := (movementActionFor_uid gm visited blocked neutralPos
      enemySpawnerPos sac sp (rm sp.id) (rf sp.id)).1
    simp only [List.map_cons, List.filter_cons, huid, Option.some.injEq]
    by_cases h : sp.id = sid
    · rw [if_pos (by simp [h]), if_pos (by simp [h])]
      simp [ih]
    · rw [if_neg (by simp [h]), if_neg (by simp [h])]
      exact ih

/-- With pairwise-distinct ids, exactly one spore of the list bears the id
of any of its members. -/
theorem filter_id_length_one :
    ∀ (l : List Spore), (l.map (fun s => s.id)).Nodup →
      ∀ sp ∈ l, (l.filter (fun s => s.id = sp.id)).length = 1 := by
  intro l
  induction l with
  | nil => intro _ sp hsp; exact absurd hsp (List.not_mem_nil sp)
  | cons a rest ih =>
    intro hnd sp hsp
    simp only [List.map_cons, List.nodup_cons] at hnd
    obtain ⟨hna, hnd'⟩ := hnd
    rcases List.mem_cons.1 hsp with rfl | hm
    · have hrest : rest.filter (fun s => s.id = sp.id) = [] := by
        rw [List.filter_eq_nil_iff]
        intro x hx
        simp only [decide_eq_true_eq]
        intro hcontra
        exact hna (hcontra ▸ List.mem_map_of_mem (fun s => s.id) hx)
      simp [List.filter_cons, hrest]
    · have hne : ¬(a.id = sp.id) := by
        intro hcontra
        exact hna (hcontra ▸ List.mem_map_of_mem (fun s => s.id) hm)
      simp [List.filter_cons, hne, ih hnd' sp hm]

/-- C1 (amended): the tick-0 burst, panic-defense and bootstrap branches of
`get_next_move` return early with only structure-creation actions; on every
other tick, with pairwise-distinct unit ids, exactly one action is
addressed to each owned unit, and it is a movement action. -/
theorem one_action_per_unit (st : BotState) (gm : TeamGameState)
    (rc rm : String → Nat → Int × Int) (rf : String → Int × Int) :
    (burstFires st gm →
      ∀ a ∈ (getNextMove st gm rc rm rf).2,
        isCreateSpawnerAction a = true) ∧
    (¬burstFires st gm → panicFires st gm →
      ∃ i, (getNextMove st gm rc rm rf).2 =
        [Action.sporeCreateSpawner i]) ∧
    (¬burstFires st gm → ¬panicFires st gm → bootstrapFires gm →
      ∃ i, (getNextMove st gm rc rm rf).2 =
        [Action.sporeCreateSpawner i]) ∧
    (¬burstFires st gm → ¬panicFires st gm → ¬bootstrapFires gm →
      ((myTeam gm).spores.map (fun s => s.id)).Nodup →
      ∀ sp ∈ (myTeam gm).spores,
        (((getNextMove st gm rc rm rf).2.filter
          (fun a => unitActionId a = some sp.id)).length = 1 ∧
        ∀ a ∈ (getNextMove st gm rc rm rf).2,
          unitActionId a = some sp.id → isMovementAction a = true)) := by
  refine ⟨?_, ?_, ?_, ?_⟩
  · intro hb a ha
    unfold getNextMove at ha
    dsimp only at ha
    rw [if_pos ⟨hb.1, hb.2⟩] at ha
    dsimp only at ha
    rw [List.mem_map] at ha
    obtain ⟨sp, _, rfl⟩ := ha
    rfl
  · intro hb hp
    unfold getNextMove
    dsimp only
    rw [if_neg (by exact hb)]
    rw [if_pos ⟨hp.1, hp.2.1⟩]
    obtain ⟨safest, hsafe⟩ := Option.isSome_iff_exists.1 hp.2.2.1
    rw [hsafe]
    dsimp only
    rw [if_pos hp.2.2.2]
    exact ⟨safest.id, rfl⟩
  · intro hb hp hboot
    unfold getNextMove
    dsimp only
    rw [if_neg (by exact hb)]
    have htail : ∃ i, (getNextMoveTail
        { st with visited := updateVisited gm st.visited } gm rc rm rf).2 =
        [Action.sporeCreateSpawner i] := by
      unfold getNextMoveTail
      rw [hboot.1]
      cases hsp : (myTeam gm).spores with
      | nil => exact absurd hsp hboot.2
      | cons sp0 rest => exact ⟨sp0.id, rfl⟩
    split
    · rename_i hcond
      cases hps : pickSafestSporeForNewSpawner gm (enemySporePositions gm)
        with
      | some safest =>
        dsimp only
        split
        · rename_i hlt
          exact absurd ⟨hcond.1, hcond.2, by rw [hps]; rfl, hlt⟩ hp
        · exact htail
      | none =>
        dsimp only
        exact htail
    · exact htail
  · intro hb hp hboot hnd sp hsp
    rw [getNextMove_actions_normal st gm rc rm rf (by exact hb) hp hboot]
    unfold movementPhase
    dsimp only
    constructor
    · rw [List.filter_append, List.length_append]
      have h1 : ((match (myTeam gm).spawners with
          | [] => ([] : List Action)
          | spw :: _ =>
            if produce_every_tick = true ∧
                (myTeam gm).spores.length < max_spores ∧
                (myTeam gm).nutrients ≥ currentSpawnBiomass gm.tick then
              [Action.spawnerProduceSpore spw.id
                (currentSpawnBiomass gm.tick)]
            else []).filter
          (fun a => unitActionId a = some sp.id)).length = 0 := by
        cases (myTeam gm).spawners with
        | nil => rfl
        | cons spw rest =>
          dsimp only
          split
          · simp [unitActionId]
          · rfl
      rw [h1]
      rw [moves_filter_length]
      rw [filter_id_length_one (myTeam gm).spores hnd sp hsp]
    · intro a ha huid
      rw [List.mem_append] at ha
      rcases ha with hpm | hmm
      · exfalso
        revert hpm
        cases (myTeam gm).spawners with
        | nil => exact fun hpm => absurd hpm (List.not_mem_nil a)
        | cons spw rest =>
          dsimp only
          split
          · intro hpm
            simp only [List.mem_singleton] at hpm
            rw [hpm] at huid
            exact absurd huid (by simp [unitActionId])
          · exact fun hpm => absurd hpm (List.not_mem_nil a)
      · rw [List.mem_map] at hmm
        obtain ⟨sp', _, rfl⟩ := hmm
        exact (movementActionFor_uid gm _ _ _ _ _ sp' _ _).2

/-- C1 counterexample: on a non-zero tick with two units, no structures and
no threat, the bootstrap branch returns early with a single
structure-creation action, so the second unit receives no action at all. -/
theorem one_action_per_unit_counterexample :
    gmBoot.tick ≠ 0 ∧
    ¬panicFires initialBotState gmBoot ∧
    (myTeam gmBoot).spores.length = 2 ∧
    (⟨"s1", "us", ⟨2, 2⟩, 1⟩ : Spore) ∈ (myTeam gmBoot).spores ∧
    ((getNextMove initialBotState gmBoot rngZero2 rngZero2
      rngZero1).2.filter
        (fun a => unitActionId a = some "s1")).length = 0 := by
  exact ⟨by decide, by decide, by decide, by decide, by rfl⟩

/-- Witness for the amended C1 on a concrete normal tick. -/
theorem one_action_per_unit_witness :
    ¬burstFires initialBotState gmNorm ∧
    ¬panicFires initialBotState gmNorm ∧
    ¬bootstrapFires gmNorm ∧
    ((myTeam gmNorm).spores.map (fun s => s.id)).Nodup ∧
    (⟨"s0", "us", ⟨0, 0⟩, 1⟩ : Spore) ∈ (myTeam gmNorm).spores ∧
    (((getNextMove initialBotState gmNorm rngZero2 rngZero2
        rngZero1).2.filter
      (fun a => unitActionId a = some (⟨"s0", "us", ⟨0, 0⟩, 1⟩ :
        Spore).id)).length = 1 ∧
    ∀ a ∈ (getNextMove initialBotState gmNorm rngZero2 rngZero2
        rngZero1).2,
      unitActionId a = some (⟨"s0", "us", ⟨0, 0⟩, 1⟩ : Spore).id →
        isMovementAction a = true) :=
  ⟨by decide, by decide, by decide, by decide, by decide,
    (one_action_per_unit initialBotState gmNorm rngZero2 rngZero2
      rngZero1).2.2.2 (by decide) (by decide) (by decide) (by decide)
      ⟨"s0", "us", ⟨0, 0⟩, 1⟩ (by decide)⟩

/-- The visited-update fold keeps everything already present. -/
theorem updateVisited_superset (gm : TeamGameState) :
    ∀ (v : List (Int × Int)) (p : Int × Int), p ∈ v →
      p ∈ updateVisited gm v := by
  unfold updateVisited
  generalize (myTeam gm).spores = l
  induction l with
  | nil => intro v p hp; exact hp
  | cons sp rest ih =>
    intro v p hp
    rw [List.foldl_cons]
    apply ih
    by_cases h : (sp.position.x, sp.position.y) ∈ v
    · rw [if_pos h]; exact hp
    · rw [if_neg h]; exact List.mem_cons_of_mem _ hp

/-- The visited-update fold adds only own-unit positions of the
snapshot. -/
theorem updateVisited_sound (gm : TeamGameState) :
    ∀ (v : List (Int × Int)) (p : Int × Int),
      p ∈ updateVisited gm v → p ∈ v ∨ p ∈ ownPositions gm := by
  unfold updateVisited ownPositions
  generalize (myTeam gm).spores = l
  induction l with
  | nil => intro v p hp; exact Or.inl hp
  | cons sp rest ih =>
    intro v p hp
    rw [List.foldl_cons] at hp
    rcases ih _ p hp with h1 | h2
    · by_cases h : (sp.position.x, sp.position.y) ∈ v
      · rw [if_pos h] at h1; exact Or.inl h1
      · rw [if_neg h] at h1
        rcases List.mem_cons.1 h1 with rfl | hm
        · exact Or.inr (by simp)
        · exact Or.inl hm
    · refine Or.inr ?_
      rw [List.map_cons]
      exact List.mem_cons_of_mem _ h2

/-- C3: the visited set is monotone across every call of `get_next_move`
(never shrinks), and over any run it only ever contains coordinates that
were an owned unit's position in some observed snapshot. -/
theorem visited_monotone_and_sound :
    (∀ (st : BotState) (gm : TeamGameState)
        (rc rm : String → Nat → Int × Int) (rf : String → Int × Int)
        (p : Int × Int),
      p ∈ st.visited → p ∈ (getNextMove st gm rc rm rf).1.visited) ∧
    (∀ (rcs rms : Nat → String → Nat → Int × Int)
        (rfs : Nat → String → Int × Int) (gms : List TeamGameState)
        (k : Nat) (st : BotState) (p : Int × Int),
      p ∈ (runBotAux rcs rms rfs k st gms).visited →
      p ∈ st.visited ∨ ∃ gm ∈ gms, p ∈ ownPositions gm) ∧
    (∀ (rcs rms : Nat → String → Nat → Int × Int)
        (rfs : Nat → String → Int × Int) (gms : List TeamGameState)
        (p : Int × Int),
      p ∈ (runBotAux rcs rms rfs 0 initialBotState gms).visited →
      ∃ gm ∈ gms, p ∈ ownPositions gm) := by
  have hsound : ∀ (rcs rms : Nat → String → Nat → Int × Int)
      (rfs : Nat → String → Int × Int) (gms : List TeamGameState)
      (k : Nat) (st : BotState) (p : Int × Int),
      p ∈ (runBotAux rcs rms rfs k st gms).visited →
      p ∈ st.visited ∨ ∃ gm ∈ gms, p ∈ ownPositions gm := by
    intro rcs rms rfs gms
    induction gms with
    | nil => intro k st p hp; exact Or.inl hp
    | cons g gs ih =>
      intro k st p hp
      unfold runBotAux at hp
      rcases ih (k + 1) _ p hp with h1 | ⟨gm, hgm, hgp⟩
      · rw [getNextMove_visited] at h1
        rcases updateVisited_sound g st.visited p h1 with hv | ho
        · exact Or.inl hv
        · exact Or.inr ⟨g, List.mem_cons_self _ _, ho⟩
      · exact Or.inr ⟨gm, List.mem_cons_of_mem _ hgm, hgp⟩
  refine ⟨?_, hsound, ?_⟩
  · intro st gm rc rm rf p hp
    rw [getNextMove_visited]
    exact updateVisited_superset gm st.visited p hp
  · intro rcs rms rfs gms p hp
    rcases hsound rcs rms rfs gms 0 initialBotState p hp with h1 | h2
    · exact absurd h1 (List.not_mem_nil p)
    · exact h2

/-- Witness for C3 at concrete inputs. -/
theorem visited_monotone_and_sound_witness :
    (((7, 7) : Int × Int) ∈
      (⟨[(7, 7)], 0, true⟩ : BotState).visited) ∧
    (((7, 7) : Int × Int) ∈
      (getNextMove ⟨[(7, 7)], 0, true⟩ gmNorm rngZero2 rngZero2
        rngZero1).1.visited) ∧
    (((0, 0) : Int × Int) ∈
      (runBotAux (fun _ => rngZero2) (fun _ => rngZero2)
        (fun _ => rngZero1) 0 initialBotState [gmNorm]).visited) ∧
    ∃ gm ∈ [gmNorm], ((0, 0) : Int × Int) ∈ ownPositions gm :=
  ⟨by decide,
    visited_monotone_and_sound.1 ⟨[(7, 7)], 0, true⟩ gmNorm rngZero2
      rngZero2 rngZero1 (7, 7) (by decide),
    by decide,
    visited_monotone_and_sound.2.2 (fun _ => rngZero2) (fun _ => rngZero2)
      (fun _ => rngZero1) [gmNorm] (0, 0) (by decide)⟩

end CoveoBot
